import Mathlib

/-!
Verification development for the taskmaster library, a Go client of the
Windows Task Scheduler service.  The Go sources (manage.go, errors.go and a
second variant of errors.go) are shallowly embedded: Go strings become lists
of characters, the native COM bridge becomes a mock scheduler state (a finite
tree of folders and tasks) together with an explicit trace of the native
calls an operation performs, and Go functions returning (value, error) pairs
become functions into an explicit result type that also records runtime
panics (a Go expression such as path[0] panics on an empty string).

Machine integers: the Go code manipulates uintptr and uint32 values in the
error-translation layer; these are embedded as Nat with an explicit
reduction modulo 2 ^ 32 exactly where the Go code performs a uint32
conversion.
-/

namespace Taskmaster

/-- Go strings, embedded as lists of characters. -/
abbrev GoStr := List Char

/-! ## Error values (errors.go and the second errors.go variant)

A Go error value relevant to this library is one of: an ole.OleError
(carrying a numeric code and a sub-error), a plain message error built by
errors.New, a syscall.Errno carrying a numeric code, or a wrapping error
built by fmt.Errorf around one or two inner errors.  The exact format-string
rendering of fmt.Errorf is not reproduced; a wrapping error keeps its
constant message part and the wrapped error values, which is enough to
distinguish every error the claims mention. -/

/-- Result of ole.OleError.SubError(): nil, an ole.EXCEPINFO value carrying
an SCODE, or some other error value. -/
inductive OleSub where
  | nil
  | excepInfo (scode : Nat)
  | other
  deriving DecidableEq, Repr

/-- Go error values, as far as this library observes them. -/
inductive GoError where
  | oleError (code : Nat) (sub : OleSub)
  | errMsg (msg : String)
  | errno (code : Nat)
  | wrap (msg : String) (inner : GoError)
  | wrap2 (msg : String) (e1 e2 : GoError)
  deriving DecidableEq, Repr

/-- EXCEPINFO.SCODE() reads a 32-bit field; its value as a Go uint32. -/
def OleSub.scodeVal (scode : Nat) : Nat := scode % 2 ^ 32

/-- Sentinel error declared in errors.go. -/
def ErrTargetUnsupported : GoError :=
  .errMsg "error connecting to the Task Scheduler service: cannot connect to the XP or server 2003 computer"

/-- Sentinel error declared in errors.go. -/
def ErrConnectionFailure : GoError :=
  .errMsg "error connecting to the Task Scheduler service: cannot connect to target computer"

/-- Sentinel error declared in errors.go. -/
def ErrInvalidPath : GoError :=
  .errMsg "path must start with root folder"

/-- Sentinel error declared in errors.go. -/
def ErrNoActions : GoError :=
  .errMsg "definition must have at least one action"

/-- Sentinel error declared in errors.go. -/
def ErrInvalidPrincipal : GoError :=
  .errMsg "both UserId and GroupId are defined for the principal; they are mutually exclusive"

/-- Sentinel error declared in errors.go. -/
def ErrRunningTaskCompleted : GoError :=
  .errMsg "the running task completed while it was getting parsed"

/-- getOLEErrorCode from errors.go (lines 51-60).  Go returns a pair
(uint32, error); the error component is modelled as an Option, with some
meaning a non-nil Go error.  The function type-asserts err to *ole.OleError
and then asserts the sub-error to ole.EXCEPINFO, returning its SCODE; if the
sub-error assertion fails it returns the OleError code converted to uint32
together with a non-nil error; if err is not an OleError it returns 0 and a
non-nil error. -/
def getOLEErrorCode (err : GoError) : Nat × Option GoError :=
  match err with
  | .oleError code sub =>
    match sub with
    | .excepInfo scode => (OleSub.scodeVal scode, none)
    | _ => (code % 2 ^ 32, some (.errMsg "failed to extract OLE sub-error code"))
  | _ => (0, some (.errMsg "failed to extract OLE error code"))

/-- getTaskSchedulerError from errors.go (lines 22-36): on extraction failure
the parse error itself is returned; otherwise code 50 maps to
ErrTargetUnsupported, codes 0x80070032 and 53 to ErrConnectionFailure, and
every other code to syscall.Errno of that code. -/
def getTaskSchedulerError (err : GoError) : GoError :=
  match getOLEErrorCode err with
  | (_, some parseErr) => parseErr
  | (errCode, none) =>
    if errCode = 50 then ErrTargetUnsupported
    else if errCode = 0x80070032 ∨ errCode = 53 then ErrConnectionFailure
    else .errno errCode

/-- getRunningTaskError from errors.go (lines 38-49): on extraction failure
the parse error itself is returned; code 0x8004130B maps to
ErrRunningTaskCompleted and every other code to syscall.Errno of that code. -/
def getRunningTaskError (err : GoError) : GoError :=
  match getOLEErrorCode err with
  | (_, some parseErr) => parseErr
  | (errCode, none) =>
    if errCode = 0x8004130B then ErrRunningTaskCompleted
    else .errno errCode

namespace part000

/-- getOLEErrorCode from the second errors.go variant (unnamed part_000,
lines 51-65): if err is an OleError with nonzero direct code, that code is
returned as uint32; otherwise, if the sub-error is non-nil and is an
EXCEPINFO, its SCODE is returned as uint32; in every other case 0 and a
non-nil error are returned. -/
def getOLEErrorCode (err : GoError) : Nat × Option GoError :=
  match err with
  | .oleError code sub =>
    if code ≠ 0 then (code % 2 ^ 32, none)
    else
      match sub with
      | .excepInfo scode => (OleSub.scodeVal scode % 2 ^ 32, none)
      | _ => (0, some (.errMsg "could not determine OLE error code"))
  | _ => (0, some (.errMsg "could not determine OLE error code"))

/-- getTaskSchedulerError from the second errors.go variant (lines 23-37):
on extraction failure it wraps both the original error and the extraction
error via fmt.Errorf; otherwise the code mapping is the same as in
errors.go. -/
def getTaskSchedulerError (err : GoError) : GoError :=
  match getOLEErrorCode err with
  | (_, some codeErr) =>
    .wrap2 "task scheduler error (unable to get specific error code)" err codeErr
  | (errCode, none) =>
    if errCode = 50 then ErrTargetUnsupported
    else if errCode = 0x80070032 ∨ errCode = 53 then ErrConnectionFailure
    else .errno errCode

/-- getRunningTaskError from the second errors.go variant (lines 39-49). -/
def getRunningTaskError (err : GoError) : GoError :=
  match getOLEErrorCode err with
  | (_, some codeErr) =>
    .wrap2 "running task error (unable to get specific error code)" err codeErr
  | (errCode, none) =>
    if errCode = 0x8004130B then ErrRunningTaskCompleted
    else .errno errCode

end part000

/-! ## Task definition data model

The struct and enum declarations live in a file of the repository that is
not among the provided sources; only manage.go (their caller) is.  They are
therefore modelled from the spec: a Definition is composed of
RegistrationInfo, Principal (identity: at most one of UserID and GroupID, a
logon type, a run level), Settings (behavioral flags and numeric options,
with nested IdleSettings holding two durations), Triggers and Actions.
Enum zero constructors correspond to the Go zero values. -/

/-- Modelled from the spec: logon-type enumeration (Principal.LogonType). -/
inductive TaskLogonType where
  | TASK_LOGON_NONE
  | TASK_LOGON_PASSWORD
  | TASK_LOGON_S4U
  | TASK_LOGON_INTERACTIVE_TOKEN
  | TASK_LOGON_GROUP
  | TASK_LOGON_SERVICE_ACCOUNT
  deriving DecidableEq, Repr

/-- Modelled from the spec: run-level enumeration (Principal.RunLevel). -/
inductive TaskRunLevel where
  | TASK_RUNLEVEL_LUA
  | TASK_RUNLEVEL_HIGHEST
  deriving DecidableEq, Repr

/-- Modelled from the spec: compatibility-level enumeration. -/
inductive TaskCompatibility where
  | TASK_COMPATIBILITY_AT
  | TASK_COMPATIBILITY_V1
  | TASK_COMPATIBILITY_V2
  deriving DecidableEq, Repr

/-- Modelled from the spec: multiple-instances policy enumeration. -/
inductive TaskInstancesPolicy where
  | TASK_INSTANCES_PARALLEL
  | TASK_INSTANCES_QUEUE
  | TASK_INSTANCES_IGNORE_NEW
  | TASK_INSTANCES_STOP_EXISTING
  deriving DecidableEq, Repr

/-- Task-creation flags passed to RegisterTaskDefinition. -/
inductive TaskCreationFlags where
  | TASK_CREATE
  | TASK_UPDATE
  deriving DecidableEq, Repr

/-- Modelled from the spec: a duration value as built by period.NewHMS
(hours, minutes, seconds). -/
structure Period where
  hours : Int := 0
  minutes : Int := 0
  seconds : Int := 0
  deriving DecidableEq, Repr

/-- period.NewHMS from the period library. -/
def NewHMS (h m s : Int) : Period := ⟨h, m, s⟩

/-- Modelled from the spec: the identity a task runs as. -/
structure Principal where
  UserID : GoStr := []
  GroupID : GoStr := []
  LogonType : TaskLogonType := .TASK_LOGON_NONE
  RunLevel : TaskRunLevel := .TASK_RUNLEVEL_LUA
  deriving DecidableEq, Repr

/-- Modelled from the spec: registration metadata of a definition.  The
creation date (a time.Time in Go) is embedded as an abstract Int
timestamp. -/
structure RegistrationInfo where
  Author : GoStr := []
  Date : Int := 0
  Description : GoStr := []
  deriving DecidableEq, Repr

/-- Modelled from the spec: nested idle settings with two durations. -/
structure IdleTaskSettings where
  IdleDuration : Period := {}
  WaitTimeout : Period := {}
  deriving DecidableEq, Repr

/-- Modelled from the spec: behavioral flags and numeric options of a
definition, exactly the fields manage.go assigns. -/
structure TaskSettings where
  AllowDemandStart : Bool := false
  AllowHardTerminate : Bool := false
  Compatibility : TaskCompatibility := .TASK_COMPATIBILITY_AT
  DontStartOnBatteries : Bool := false
  Enabled : Bool := false
  Hidden : Bool := false
  IdleSettings : IdleTaskSettings := {}
  MultipleInstances : TaskInstancesPolicy := .TASK_INSTANCES_PARALLEL
  Priority : Nat := 0
  RestartCount : Nat := 0
  RestartOnIdle : Bool := false
  RunOnlyIfIdle : Bool := false
  RunOnlyIfNetworkAvailable : Bool := false
  StartWhenAvailable : Bool := false
  StopIfGoingOnBatteries : Bool := false
  StopOnIdleEnd : Bool := false
  TimeLimit : Period := {}
  WakeToRun : Bool := false
  deriving DecidableEq, Repr

/-- Modelled from the spec: an action (what to run); opaque to this core
beyond presence checks. -/
inductive Action where
  | exec (path args workingDir : GoStr)
  deriving DecidableEq, Repr

/-- Modelled from the spec: a trigger (when to run); opaque to this core
beyond presence checks. -/
inductive Trigger where
  | trigger (id : GoStr)
  deriving DecidableEq, Repr

/-- Modelled from the spec: the structured, client-authored configuration of
a task. -/
structure Definition where
  Actions : List Action := []
  Principal : Principal := {}
  RegistrationInfo : RegistrationInfo := {}
  Settings : TaskSettings := {}
  Triggers : List Trigger := []
  deriving DecidableEq, Repr

/-- Modelled from the spec: a snapshot of one task known to the service:
its path and its parsed Definition. -/
structure RegisteredTask where
  Path : GoStr
  Definition : Definition
  deriving DecidableEq, Repr

/-! ## TaskService connection state

The TaskService struct of manage.go: the initialization and connection
flags together with the resolved identity of the connection.  The native
handles (taskServiceObj, rootFolderObj) have no data content in the
embedding; the mock scheduler state is passed to each operation
explicitly. -/

/-- TaskService from manage.go, restricted to the fields with data
content. -/
structure TaskService where
  isInitialized : Bool := false
  isConnected : Bool := false
  connectedDomain : GoStr := []
  connectedComputerName : GoStr := []
  connectedUser : GoStr := []
  deriving DecidableEq, Repr

/-! ## The native scheduler, mocked

The Native Object Bridge is an external collaborator.  Its state is mocked
as a finite tree of folders, each carrying a name, an absolute path, the
tasks registered directly inside it, and its child folders.  Each operation
of manage.go is embedded as a function of this state that returns its Go
results, the new state, and the trace of calls it issued on the bridge.
Folder handles obtained from the bridge are embedded as snapshots of the
folder node at the time the handle was obtained. -/

/-- A task as stored by the native service: its absolute path and its
definition. -/
structure NTask where
  path : GoStr
  defn : Definition
  deriving DecidableEq, Repr

mutual
/-- A folder node of the native service hierarchy. -/
inductive NFolder where
  | mk (name : GoStr) (path : GoStr) (tasks : List NTask) (subs : NFolderL)
  deriving DecidableEq, Repr
/-- A list of native folder nodes. -/
inductive NFolderL where
  | nil
  | cons (hd : NFolder) (tl : NFolderL)
  deriving DecidableEq, Repr
end

/-- Name attribute of a native folder node. -/
def NFolder.name : NFolder → GoStr
  | .mk n _ _ _ => n

/-- Path attribute of a native folder node. -/
def NFolder.path : NFolder → GoStr
  | .mk _ p _ _ => p

/-- Tasks registered directly inside a native folder node. -/
def NFolder.tasks : NFolder → List NTask
  | .mk _ _ ts _ => ts

/-- Child folders of a native folder node. -/
def NFolder.subs : NFolder → NFolderL
  | .mk _ _ _ ss => ss

/-- Number of folders in a native folder list. -/
def NFolderL.length : NFolderL → Nat
  | .nil => 0
  | .cons _ tl => 1 + tl.length

/-- Append a single folder at the end of a folder list. -/
def NFolderL.append : NFolderL → NFolder → NFolderL
  | .nil, nf => .cons nf .nil
  | .cons f fs, nf => .cons f (fs.append nf)

/-- A call issued on the native bridge, recorded in the trace of an
operation. -/
inductive NCall where
  | GetFolder (path : GoStr)
  | GetTasks (folderPath : GoStr) (flags : Nat)
  | GetFolders (folderPath : GoStr) (flags : Nat)
  | GetTask (path : GoStr)
  | CreateFolder (path : GoStr)
  | DeleteTask (path : GoStr)
  | DeleteFolder (path : GoStr)
  | NewTask
  | RegisterTaskDefinition (path : GoStr)
  | GetProperty (objPath : GoStr) (prop : String)
  deriving DecidableEq, Repr

/-- TASK_ENUM_HIDDEN flag value. -/
def TASK_ENUM_HIDDEN : Nat := 1

/-- Result of a Go function: a value, a non-nil error, or a runtime
panic. -/
inductive GoRes (α : Type) where
  | ok (val : α)
  | err (e : GoError)
  | panics
  deriving DecidableEq, Repr

mutual
/-- Find the folder node with the given path attribute (the node itself or
a descendant). -/
def findFolder (p : GoStr) : NFolder → Option NFolder
  | .mk n q ts ss => if q = p then some (.mk n q ts ss) else findFolderL p ss
/-- Find the folder node with the given path attribute among a list of
folders and their descendants. -/
def findFolderL (p : GoStr) : NFolderL → Option NFolder
  | .nil => none
  | .cons f fs =>
    match findFolder p f with
    | some r => some r
    | none => findFolderL p fs
end

mutual
/-- Find the task with the given path attribute anywhere in the tree. -/
def findTask (p : GoStr) : NFolder → Option NTask
  | .mk _ _ ts ss =>
    match ts.find? (fun t => t.path = p) with
    | some t => some t
    | none => findTaskL p ss
/-- Find the task with the given path attribute anywhere under a list of
folders. -/
def findTaskL (p : GoStr) : NFolderL → Option NTask
  | .nil => none
  | .cons f fs =>
    match findTask p f with
    | some t => some t
    | none => findTaskL p fs
end

mutual
/-- Remove every task with the given path attribute from the tree. -/
def removeTask (p : GoStr) : NFolder → NFolder
  | .mk n q ts ss => .mk n q (ts.filter (fun t => t.path ≠ p)) (removeTaskL p ss)
/-- Remove every task with the given path attribute from a list of
folders. -/
def removeTaskL (p : GoStr) : NFolderL → NFolderL
  | .nil => .nil
  | .cons f fs => .cons (removeTask p f) (removeTaskL p fs)
end

/-- True when a folder list is empty. -/
def NFolderL.isNil : NFolderL → Bool
  | .nil => true
  | .cons _ _ => false

/-- True when a folder node has no tasks and no subfolders.  The native
service deletes a folder only in this state. -/
def NFolder.isEmptyFolder (f : NFolder) : Bool :=
  f.tasks.isEmpty && f.subs.isNil

mutual
/-- Remove every empty descendant folder node with the given path
attribute.  The native service refuses to delete a non-empty folder, so
the removal performed by a successful DeleteFolder call only ever drops
empty nodes. -/
def removeFolder (p : GoStr) : NFolder → NFolder
  | .mk n q ts ss => .mk n q ts (removeFolderL p ss)
/-- Remove every empty folder node with the given path attribute from a
list of folders and from their descendants. -/
def removeFolderL (p : GoStr) : NFolderL → NFolderL
  | .nil => .nil
  | .cons f fs =>
    if f.path = p ∧ f.isEmptyFolder = true then removeFolderL p fs
    else .cons (removeFolder p f) (removeFolderL p fs)
end

mutual
/-- Append a task to the task list of every folder node with the given path
attribute. -/
def insertTask (fp : GoStr) (nt : NTask) : NFolder → NFolder
  | .mk n q ts ss =>
    .mk n q (if q = fp then ts ++ [nt] else ts) (insertTaskL fp nt ss)
/-- Append a task to the task list of every folder node with the given path
attribute, in a list of folders. -/
def insertTaskL (fp : GoStr) (nt : NTask) : NFolderL → NFolderL
  | .nil => .nil
  | .cons f fs => .cons (insertTask fp nt f) (insertTaskL fp nt fs)
end

mutual
/-- Append a child folder to the subfolder list of every folder node with
the given path attribute. -/
def insertFolder (fp : GoStr) (nf : NFolder) : NFolder → NFolder
  | .mk n q ts ss =>
    .mk n q ts (if q = fp then NFolderL.append (insertFolderL fp nf ss) nf
                else insertFolderL fp nf ss)
/-- Append a child folder to the subfolder list of every folder node with
the given path attribute, in a list of folders. -/
def insertFolderL (fp : GoStr) (nf : NFolder) : NFolderL → NFolderL
  | .nil => .nil
  | .cons f fs => .cons (insertFolder fp nf f) (insertFolderL fp nf fs)
end

/-- Index of the last occurrence of a character in a Go string, when
present. -/
def lastIndexOf (c : Char) : GoStr → Option Nat
  | [] => none
  | a :: rest =>
    match lastIndexOf c rest with
    | some i => some (i + 1)
    | none => if a = c then some 0 else none

/-- The root path, a single backslash. -/
def rootPath : GoStr := ['\\']

/-- Parent folder path the native service associates with a task path: the
prefix before the last backslash, with the root path for a task directly
under the root. -/
def parentDir (p : GoStr) : GoStr :=
  match lastIndexOf '\\' p with
  | some 0 => rootPath
  | some i => p.take i
  | none => []

/-- Mock bridge call GetFolder: an empty path names the root folder, as the
native service treats it; otherwise the folder with that path attribute is
looked up. -/
def goGetFolder (st : NFolder) (p : GoStr) : Option NFolder :=
  if p = [] then findFolder rootPath st else findFolder p st

/-- Mock bridge call GetTask on the root folder handle. -/
def goGetTask (st : NFolder) (p : GoStr) : Option NTask :=
  findTask p st

/-- Mock bridge call DeleteTask on the root folder handle: fails when no
task has the given path, otherwise removes it. -/
def goDeleteTask (st : NFolder) (p : GoStr) : Option NFolder :=
  if (findTask p st).isSome then some (removeTask p st) else none

/-- Mock bridge call DeleteFolder on the root folder handle: fails when no
proper descendant folder has the given path or when that folder is not
empty, otherwise removes it.  The native service refuses to delete a
non-empty folder and cannot delete the root itself. -/
def goDeleteFolder (st : NFolder) (p : GoStr) : Option NFolder :=
  match findFolderL p st.subs with
  | some f => if f.isEmptyFolder then some (removeFolder p st) else none
  | none => none

/-- Mock bridge call RegisterTaskDefinition on the root folder handle:
fails when the parent folder of the task path does not exist; otherwise
replaces any task at that path with the new definition and returns the new
native task object. -/
def goRegisterTask (st : NFolder) (p : GoStr) (d : Definition) :
    Option (NTask × NFolder) :=
  match goGetFolder st (parentDir p) with
  | some parent => some (⟨p, d⟩, insertTask parent.path ⟨p, d⟩ (removeTask p st))
  | none => none

/-- Modelled from the spec: parseRegisteredTask converts a native task
object into a RegisteredTask snapshot (the parse of a task present in the
mock state always succeeds). -/
def parseRegisteredTask (t : NTask) : RegisteredTask :=
  ⟨t.path, t.defn⟩

/-- The OLE error the mock bridge produces when a lookup fails (the concrete
code is the Windows file-not-found code; the operations of manage.go only
pass it through getTaskSchedulerError). -/
def bridgeNotFound : GoError := .oleError 0 (.excepInfo 0x80070002)

/-! ## Connection manager (manage.go) -/

/-- A release or teardown step performed by Disconnect. -/
inductive ComEvent where
  | releaseTaskServiceObj
  | releaseRootFolderObj
  | comTeardown
  deriving DecidableEq, Repr

/-- Disconnect from manage.go (lines 117-128): if connected it releases the
service and root-folder handles, if the thread context was set up it tears
it down, and it always resets both flags to false.  The releases are
returned as an explicit event list. -/
def Disconnect (t : TaskService) : TaskService × List ComEvent :=
  let ev1 : List ComEvent :=
    if t.isConnected then [.releaseTaskServiceObj, .releaseRootFolderObj] else []
  let ev2 : List ComEvent := if t.isInitialized then [.comTeardown] else []
  ({ t with isInitialized := false, isConnected := false }, ev1 ++ ev2)

/-- NewTaskDefinition from manage.go (lines 392-422).  The call to time.Now
is embedded as the explicit parameter now; the function performs no native
call and is otherwise a pure value constructor starting from the Go zero
value of Definition. -/
def NewTaskDefinition (t : TaskService) (now : Int) : Definition :=
  { Principal :=
      { LogonType := .TASK_LOGON_INTERACTIVE_TOKEN
        RunLevel := .TASK_RUNLEVEL_LUA }
    RegistrationInfo :=
      { Author := t.connectedDomain ++ '\\' :: t.connectedUser
        Date := now }
    Settings :=
      { AllowDemandStart := true
        AllowHardTerminate := true
        Compatibility := .TASK_COMPATIBILITY_V2
        DontStartOnBatteries := true
        Enabled := true
        Hidden := false
        IdleSettings :=
          { IdleDuration := NewHMS 0 10 0
            WaitTimeout := NewHMS 1 0 0 }
        MultipleInstances := .TASK_INSTANCES_IGNORE_NEW
        Priority := 7
        RestartCount := 0
        RestartOnIdle := false
        RunOnlyIfIdle := false
        RunOnlyIfNetworkAvailable := false
        StartWhenAvailable := false
        StopIfGoingOnBatteries := true
        StopOnIdleEnd := true
        TimeLimit := NewHMS 72 0 0
        WakeToRun := false } }

/-! ## Tree enumerator (manage.go) -/

/-- GetRegisteredTask from manage.go (lines 251-267).  Indexing path[0]
panics on the empty string. -/
def GetRegisteredTask (t : TaskService) (st : NFolder) (path : GoStr) :
    GoRes RegisteredTask × List NCall :=
  match path with
  | [] => (.panics, [])
  | c :: _ =>
    if c ≠ '\\' then (.err ErrInvalidPath, [])
    else
      match goGetTask st path with
      | none =>
        (.err (.wrap "error getting registered task" (getTaskSchedulerError bridgeNotFound)),
         [.GetTask path])
      | some nt => (.ok (parseRegisteredTask nt), [.GetTask path])

mutual
/-- The tree of folders and tasks built by GetTaskFolder, mirroring the
TaskFolder struct of the repository. -/
inductive TaskFolder where
  | mk (Name : GoStr) (Path : GoStr) (RegisteredTasks : List RegisteredTask)
      (SubFolders : TaskFolderL)
  deriving DecidableEq, Repr
/-- A list of TaskFolder nodes. -/
inductive TaskFolderL where
  | nil
  | cons (hd : TaskFolder) (tl : TaskFolderL)
  deriving DecidableEq, Repr
end

/-- Name attribute of a built TaskFolder. -/
def TaskFolder.Name : TaskFolder → GoStr
  | .mk n _ _ _ => n

/-- Path attribute of a built TaskFolder. -/
def TaskFolder.Path : TaskFolder → GoStr
  | .mk _ p _ _ => p

/-- Tasks of a built TaskFolder. -/
def TaskFolder.RegisteredTasks : TaskFolder → List RegisteredTask
  | .mk _ _ ts _ => ts

/-- Child folders of a built TaskFolder. -/
def TaskFolder.SubFolders : TaskFolder → TaskFolderL
  | .mk _ _ _ ss => ss

mutual
/-- The recursive closure initEnumTaskFolders/enumTaskFolders of
GetTaskFolder (manage.go lines 326-380), acting on the snapshot of one
native folder: it reads the Name and Path properties, fetches the tasks,
parses each, fetches the subfolders and recurses, returning the built
subtree and the trace of bridge calls.  The Go code appends the subtree to
its parent before filling its subfolders through a pointer; the built value
is the same. -/
def enumTaskFolders (nf : NFolder) : TaskFolder × List NCall :=
  match nf with
  | .mk name p ts ss =>
    let rec_ := enumTaskFoldersL ss
    (.mk name p (ts.map parseRegisteredTask) rec_.1,
     [.GetProperty p "Name", .GetProperty p "Path", .GetTasks p TASK_ENUM_HIDDEN,
      .GetFolders p 0] ++ rec_.2)
/-- ForEach of the recursive closure over a native folder collection. -/
def enumTaskFoldersL (nfs : NFolderL) : TaskFolderL × List NCall :=
  match nfs with
  | .nil => (.nil, [])
  | .cons f fs =>
    let r1 := enumTaskFolders f
    let r2 := enumTaskFoldersL fs
    (.cons r1.1 r2.1, r1.2 ++ r2.2)
end

/-- GetTaskFolder from manage.go (lines 278-388).  The returned top folder
is built as TaskFolder with Path set to the root separator (line 302)
regardless of the path argument, its tasks parsed from the resolved folder,
and its subfolders built by the recursive enumeration. -/
def GetTaskFolder (t : TaskService) (st : NFolder) (path : GoStr) :
    GoRes TaskFolder × List NCall :=
  match path with
  | [] => (.panics, [])
  | c :: _ =>
    if c ≠ '\\' then (.err ErrInvalidPath, [])
    else
      match
        (if path = rootPath then (some st, ([] : List NCall))
         else
           match goGetFolder st path with
           | some f => (some f, [NCall.GetFolder path])
           | none => (none, [NCall.GetFolder path])) with
      | (none, trc) =>
        (.err (.wrap "error getting folder" (getTaskSchedulerError bridgeNotFound)), trc)
      | (some top, trc) =>
        let trc := trc ++ [NCall.GetTasks top.path TASK_ENUM_HIDDEN,
                           NCall.GetFolders top.path 0]
        let r := enumTaskFoldersL top.subs
        (.ok (.mk [] rootPath (top.tasks.map parseRegisteredTask) r.1), trc ++ r.2)

/-- GetTaskFolders from manage.go (lines 271-273): GetTaskFolder at the
root. -/
def GetTaskFolders (t : TaskService) (st : NFolder) : GoRes TaskFolder × List NCall :=
  GetTaskFolder t st rootPath

/-! ## Definition validator and task/folder mutators (manage.go) -/

/-- Modelled from the spec: validateDefinition is missing from the provided
sources (manage.go is its caller).  It fails with ErrNoActions if Actions
is empty and with ErrInvalidPrincipal if both UserID and GroupID are set,
and runs before any native mutation. -/
def validateDefinition (d : Definition) : Option GoError :=
  if d.Actions = [] then some ErrNoActions
  else if d.Principal.UserID ≠ [] ∧ d.Principal.GroupID ≠ [] then some ErrInvalidPrincipal
  else none

/-- taskFolderExist from manage.go (lines 669-676): a GetFolder probe. -/
def taskFolderExist (t : TaskService) (st : NFolder) (p : GoStr) : Bool × List NCall :=
  ((goGetFolder st p).isSome, [.GetFolder p])

/-- registeredTaskExist from manage.go (lines 660-667): a GetTask probe. -/
def registeredTaskExist (t : TaskService) (st : NFolder) (p : GoStr) : Bool × List NCall :=
  ((goGetTask st p).isSome, [.GetTask p])

/-- Last path segment of a folder path. -/
def lastSegment (p : GoStr) : GoStr :=
  match lastIndexOf '\\' p with
  | some i => p.drop (i + 1)
  | none => p

/-- Mock bridge call CreateFolder on the root folder handle: fails when the
folder already exists or when its parent does not; otherwise a fresh empty
folder node is appended to the parent. -/
def goCreateFolder (st : NFolder) (fp : GoStr) : Option NFolder :=
  if (goGetFolder st fp).isSome then none
  else
    match goGetFolder st (parentDir fp) with
    | some parent =>
      some (insertFolder parent.path (.mk (lastSegment fp) fp [] .nil) st)
    | none => none

/-- The default-identity step of modifyTask (manage.go lines 511-514): if
neither UserID nor GroupID is set on the principal, the connection identity
connectedDomain, backslash, connectedUser is injected as UserID. -/
def defaultUserID (t : TaskService) (newTaskDef : Definition) : Definition :=
  if newTaskDef.Principal.UserID = [] ∧ newTaskDef.Principal.GroupID = [] then
    { newTaskDef with
      Principal :=
        { newTaskDef.Principal with
          UserID := t.connectedDomain ++ '\\' :: t.connectedUser } }
  else newTaskDef

/-- modifyTask from manage.go (lines 510-534): the default-identity step,
then a fresh native definition object is created (NewTask), filled from the
definition (fillDefinitionObj, modelled from the spec as embedding the
definition value into the native object), and registered at the path. -/
def modifyTask (t : TaskService) (st : NFolder) (path : GoStr) (newTaskDef : Definition)
    (username password : GoStr) (logonType : TaskLogonType) (flags : TaskCreationFlags) :
    GoRes NTask × NFolder × List NCall :=
  match goRegisterTask st path (defaultUserID t newTaskDef) with
  | none =>
    (.err (.wrap "error registering task" (getTaskSchedulerError bridgeNotFound)), st,
     [.NewTask, .RegisterTaskDefinition path])
  | some (nt, st') => (.ok nt, st', [.NewTask, .RegisterTaskDefinition path])

/-- CreateTaskEx from manage.go (lines 434-479).  Indexing path[0] panics
on the empty string; the invalid-path and validation checks come before any
bridge call; then the parent folder is probed and created when missing,
an existing task at the path is returned as-is (overwrite false) or
deleted (overwrite true), and the definition is registered via
modifyTask. -/
def CreateTaskEx (t : TaskService) (st : NFolder) (path : GoStr) (newTaskDef : Definition)
    (username password : GoStr) (logonType : TaskLogonType) (overwrite : Bool) :
    GoRes (RegisteredTask × Bool) × NFolder × List NCall :=
  match path with
  | [] => (.panics, st, [])
  | c :: _ =>
    if c ≠ '\\' then (.err ErrInvalidPath, st, [])
    else
      match validateDefinition newTaskDef with
      | some e => (.err e, st, [])
      | none =>
        let nameIndex := (lastIndexOf '\\' path).getD 0
        let folderPath := path.take nameIndex
        let finish := fun (st1 : NFolder) (trc : List NCall) =>
          match modifyTask t st1 path newTaskDef username password logonType .TASK_CREATE with
          | (.ok nt, st2, trc2) =>
            (GoRes.ok (parseRegisteredTask nt, true), st2, trc ++ trc2)
          | (.err e, st2, trc2) =>
            (GoRes.err (.wrap "error creating registered task" e), st2, trc ++ trc2)
          | (.panics, st2, trc2) => (GoRes.panics, st2, trc ++ trc2)
        let trc0 := [NCall.GetFolder folderPath]
        if (goGetFolder st folderPath).isSome = false then
          match goCreateFolder st folderPath with
          | none =>
            (.err (.wrap "error creating folder" (getTaskSchedulerError bridgeNotFound)), st,
             trc0 ++ [.CreateFolder folderPath])
          | some st1 => finish st1 (trc0 ++ [.CreateFolder folderPath])
        else
          if (goGetTask st path).isSome then
            if overwrite = false then
              match GetRegisteredTask t st path with
              | (.ok task, trc1) => (.ok (task, false), st, trc0 ++ [.GetTask path] ++ trc1)
              | (.err e, trc1) => (.err e, st, trc0 ++ [.GetTask path] ++ trc1)
              | (.panics, trc1) => (.panics, st, trc0 ++ [.GetTask path] ++ trc1)
            else
              match goDeleteTask st path with
              | none =>
                (.err (.wrap "error deleting registered task"
                        (getTaskSchedulerError bridgeNotFound)), st,
                 trc0 ++ [.GetTask path, .DeleteTask path])
              | some st1 => finish st1 (trc0 ++ [.GetTask path, .DeleteTask path])
          else finish st (trc0 ++ [.GetTask path])

/-- UpdateTaskEx from manage.go (lines 487-508): invalid-path and
validation checks, then modifyTask with the update flag. -/
def UpdateTaskEx (t : TaskService) (st : NFolder) (path : GoStr) (newTaskDef : Definition)
    (username password : GoStr) (logonType : TaskLogonType) :
    GoRes RegisteredTask × NFolder × List NCall :=
  match path with
  | [] => (.panics, st, [])
  | c :: _ =>
    if c ≠ '\\' then (.err ErrInvalidPath, st, [])
    else
      match validateDefinition newTaskDef with
      | some e => (.err e, st, [])
      | none =>
        match modifyTask t st path newTaskDef username password logonType .TASK_UPDATE with
        | (.ok nt, st', trc) => (.ok (parseRegisteredTask nt), st', trc)
        | (.err e, st', trc) => (.err (.wrap "error updating task" e), st', trc)
        | (.panics, st', trc) => (.panics, st', trc)

/-- DeleteTask from manage.go (lines 645-658).  Indexing path[0] panics on
the empty string. -/
def DeleteTask (t : TaskService) (st : NFolder) (path : GoStr) :
    GoRes Unit × NFolder × List NCall :=
  match path with
  | [] => (.panics, st, [])
  | c :: _ =>
    if c ≠ '\\' then (.err ErrInvalidPath, st, [])
    else
      match goDeleteTask st path with
      | none =>
        (.err (.wrap "error deleting task" (getTaskSchedulerError bridgeNotFound)), st,
         [.DeleteTask path])
      | some st' => (.ok (), st', [.DeleteTask path])

/-- The deleteAllTasks closure of DeleteFolder (manage.go lines 575-582),
iterated by ForEach over a snapshot task collection: for each task it reads
the Path property and calls the public DeleteTask, stopping at the first
error. -/
def deleteAllTasksFold (t : TaskService) : List NTask → NFolder →
    GoRes Unit × NFolder × List NCall
  | [], st => (.ok (), st, [])
  | task :: rest, st =>
    let trcP := [NCall.GetProperty task.path "Path"]
    match DeleteTask t st task.path with
    | (.ok _, st1, trc1) =>
      match deleteAllTasksFold t rest st1 with
      | (r, st2, trc2) => (r, st2, trcP ++ trc1 ++ trc2)
    | (.err e, st1, trc1) => (.err e, st1, trcP ++ trc1)
    | (.panics, st1, trc1) => (.panics, st1, trcP ++ trc1)

mutual
/-- The deleteTasksRecursively closure of DeleteFolder (manage.go lines
588-626), acting on the snapshot of one subfolder: it fetches and deletes
the folder's tasks, recurses into its subfolders, reads its Path property
and finally deletes the (now empty) folder itself. -/
def deleteTasksRecursively (t : TaskService) (v : NFolder) (st : NFolder) :
    GoRes Unit × NFolder × List NCall :=
  match v with
  | .mk _ p ts ss =>
    let trc0 := [NCall.GetTasks p TASK_ENUM_HIDDEN]
    match deleteAllTasksFold t ts st with
    | (.ok _, st1, trc1) =>
      let trc2 := [NCall.GetFolders p TASK_ENUM_HIDDEN]
      match deleteTasksRecursivelyL t ss st1 with
      | (.ok _, st2, trc3) =>
        let trcP := [NCall.GetProperty p "Path"]
        match goDeleteFolder st2 p with
        | some st3 =>
          (.ok (), st3, trc0 ++ trc1 ++ trc2 ++ trc3 ++ trcP ++ [.DeleteFolder p])
        | none =>
          (.err (.wrap "error deleting task folder" (getTaskSchedulerError bridgeNotFound)),
           st2, trc0 ++ trc1 ++ trc2 ++ trc3 ++ trcP ++ [.DeleteFolder p])
      | (r, st2, trc3) => (r, st2, trc0 ++ trc1 ++ trc2 ++ trc3)
    | (r, st1, trc1) => (r, st1, trc0 ++ trc1)
/-- ForEach of deleteTasksRecursively over a snapshot folder collection,
stopping at the first error. -/
def deleteTasksRecursivelyL (t : TaskService) (vs : NFolderL) (st : NFolder) :
    GoRes Unit × NFolder × List NCall :=
  match vs with
  | .nil => (.ok (), st, [])
  | .cons f fs =>
    match deleteTasksRecursively t f st with
    | (.ok _, st1, trc1) =>
      match deleteTasksRecursivelyL t fs st1 with
      | (r, st2, trc2) => (r, st2, trc1 ++ trc2)
    | (r, st1, trc1) => (r, st1, trc1)
end

/-- DeleteFolder from manage.go (lines 539-642).  Indexing path[0] panics
on the empty string.  In non-recursive mode the Count properties of the
task and folder collections are read (the Go conjunctions short-circuit,
so recursive mode does not read them) and a non-empty folder makes the
call return false with no error and no further bridge call.  In recursive
mode the folder's tasks are deleted, every subfolder is deleted by the
recursive closure, and finally the target folder itself is deleted. -/
def DeleteFolder (t : TaskService) (st : NFolder) (path : GoStr)
    (deleteRecursively : Bool) : GoRes Bool × NFolder × List NCall :=
  match path with
  | [] => (.panics, st, [])
  | c :: _ =>
    if c ≠ '\\' then (.err ErrInvalidPath, st, [])
    else
      match goGetFolder st path with
      | none =>
        (.err (.wrap "error getting folder" (getTaskSchedulerError bridgeNotFound)), st,
         [.GetFolder path])
      | some taskFolderObj =>
        let trc := [NCall.GetFolder path,
                    NCall.GetTasks taskFolderObj.path TASK_ENUM_HIDDEN]
        let countTrc : List NCall :=
          if deleteRecursively then [] else [.GetProperty taskFolderObj.path "Count"]
        if deleteRecursively = false ∧ taskFolderObj.tasks.length > 0 then
          (.ok false, st, trc ++ countTrc)
        else
          let trc := trc ++ countTrc ++ [NCall.GetFolders taskFolderObj.path TASK_ENUM_HIDDEN]
          if deleteRecursively = false ∧ taskFolderObj.subs.length > 0 then
            (.ok false, st, trc ++ countTrc)
          else
            let trc := trc ++ countTrc
            if deleteRecursively then
              match deleteAllTasksFold t taskFolderObj.tasks st with
              | (.ok _, st1, trc1) =>
                match deleteTasksRecursivelyL t taskFolderObj.subs st1 with
                | (.ok _, st2, trc2) =>
                  match goDeleteFolder st2 path with
                  | some st3 => (.ok true, st3, trc ++ trc1 ++ trc2 ++ [.DeleteFolder path])
                  | none =>
                    (.err (.wrap "error deleting task folder"
                            (getTaskSchedulerError bridgeNotFound)), st2,
                     trc ++ trc1 ++ trc2 ++ [.DeleteFolder path])
                | (.err e, st2, trc2) => (.err e, st2, trc ++ trc1 ++ trc2)
                | (.panics, st2, trc2) => (.panics, st2, trc ++ trc1 ++ trc2)
              | (.err e, st1, trc1) => (.err e, st1, trc ++ trc1)
              | (.panics, st1, trc1) => (.panics, st1, trc ++ trc1)
            else
              match goDeleteFolder st path with
              | some st' => (.ok true, st', trc ++ [.DeleteFolder path])
              | none =>
                (.err (.wrap "error deleting task folder"
                        (getTaskSchedulerError bridgeNotFound)), st,
                 trc ++ [.DeleteFolder path])

/-! ## Specification-side functions and well-formedness

These definitions follow the words of the spec and are compared with the
embedded code: the mirror of the native hierarchy (what the tree enumerator
is specified to build), the post-order deletion sequence (what the
recursive folder deletion is specified to perform), and the enumeration and
distinctness predicates a real scheduler state satisfies (every path names
at most one folder and at most one task, and task paths are absolute). -/

mutual
/-- Definition following the words of the spec: the owned TaskFolder tree
that mirrors the native hierarchy, node for node, with the tasks of each
folder parsed in place. -/
def mirrorFolder : NFolder → TaskFolder
  | .mk n p ts ss => .mk n p (ts.map parseRegisteredTask) (mirrorFolderL ss)
/-- Mirror of a native folder list. -/
def mirrorFolderL : NFolderL → TaskFolderL
  | .nil => .nil
  | .cons f fs => .cons (mirrorFolder f) (mirrorFolderL fs)
end

mutual
/-- Definition following the words of the spec: the mutating bridge calls a
recursive folder deletion performs, in order — the tasks of a folder, then
each subfolder bottom-up, then the folder itself. -/
def postOrderDeletes : NFolder → List NCall
  | .mk _ p ts ss =>
    ts.map (fun task => NCall.DeleteTask task.path) ++ postOrderDeletesL ss ++
      [NCall.DeleteFolder p]
/-- Post-order deletion sequence of a folder list. -/
def postOrderDeletesL : NFolderL → List NCall
  | .nil => []
  | .cons f fs => postOrderDeletes f ++ postOrderDeletesL fs
end

/-- True for the bridge calls that mutate service state. -/
def NCall.isMutation : NCall → Bool
  | .CreateFolder _ => true
  | .DeleteTask _ => true
  | .DeleteFolder _ => true
  | .RegisterTaskDefinition _ => true
  | _ => false

/-- The mutating subsequence of a trace. -/
def mutationCalls (trc : List NCall) : List NCall :=
  trc.filter NCall.isMutation

mutual
/-- All tasks stored anywhere in a tree, in depth-first order. -/
def allTasks : NFolder → List NTask
  | .mk _ _ ts ss => ts ++ allTasksL ss
/-- All tasks stored anywhere under a folder list. -/
def allTasksL : NFolderL → List NTask
  | .nil => []
  | .cons f fs => allTasks f ++ allTasksL fs
end

mutual
/-- The path attributes of all folder nodes of a tree, in depth-first
order. -/
def allFolderPaths : NFolder → List GoStr
  | .mk _ p _ ss => p :: allFolderPathsL ss
/-- The path attributes of all folder nodes of a folder list. -/
def allFolderPathsL : NFolderL → List GoStr
  | .nil => []
  | .cons f fs => allFolderPaths f ++ allFolderPathsL fs
end

/-- Path attributes of the tasks of a tree, in depth-first order. -/
def allTaskPaths (S : NFolder) : List GoStr :=
  (allTasks S).map (fun nt => nt.path)

/-- Task paths of a folder list. -/
def allTaskPathsL (L : NFolderL) : List GoStr :=
  (allTasksL L).map (fun nt => nt.path)

/-- Well-formedness: distinct task paths in the whole state. -/
def TasksNodup (S : NFolder) : Prop := (allTaskPaths S).Nodup

/-- Well-formedness: distinct folder paths in the whole state. -/
def FoldersNodup (S : NFolder) : Prop := (allFolderPaths S).Nodup

/-- Well-formedness: every task path is absolute (starts with the root
separator), as the native service guarantees. -/
def TasksValid (S : NFolder) : Prop :=
  ∀ nt ∈ allTasks S, nt.path.head? = some '\\'

/-- Iterated task removal, matching the state transformation of a
successful ForEach of task deletions over a snapshot collection. -/
def removeTasks (ts : List NTask) (S : NFolder) : NFolder :=
  ts.foldl (fun s task => removeTask task.path s) S

mutual
/-- The state transformation of a successful recursive folder deletion:
remove the folder's tasks, scrub each subfolder, then drop the emptied
folder node itself. -/
def scrub (v : NFolder) (S : NFolder) : NFolder :=
  match v with
  | .mk _ p ts ss => removeFolder p (scrubL ss (removeTasks ts S))
/-- Iterated scrub over a folder list. -/
def scrubL (vs : NFolderL) (S : NFolder) : NFolder :=
  match vs with
  | .nil => S
  | .cons f fs => scrubL fs (scrub f S)
end

/-! ## Concrete sample values -/

/-- A Go string literal. -/
def strOf (s : String) : GoStr := s.data

/-- A sample connection: connected and initialized, with a resolved
identity. -/
def sampleService : TaskService :=
  { isInitialized := true
    isConnected := true
    connectedDomain := strOf "DOM"
    connectedComputerName := strOf "HOST"
    connectedUser := strOf "alice" }

/-- A sample valid definition with one action. -/
def sampleDef : Definition :=
  { Actions := [.exec (strOf "C:\\prog.exe") [] []] }

/-- A second sample definition, used as the pre-existing content of sample
states. -/
def oldDef : Definition :=
  { Actions := [.exec (strOf "C:\\old.exe") [] []]
    Principal := { UserID := strOf "DOM\\bob" } }

/-- Sample state: the root folder holding one task at the top level and a
subfolder A holding a task and a nested subfolder B with a task. -/
def sampleState : NFolder :=
  .mk (strOf "\\") rootPath [⟨strOf "\\top", oldDef⟩]
    (.cons
      (.mk (strOf "A") (strOf "\\A") [⟨strOf "\\A\\t1", oldDef⟩]
        (.cons (.mk (strOf "B") (strOf "\\A\\B") [⟨strOf "\\A\\B\\t2", oldDef⟩] .nil) .nil))
      .nil)

/-- Sample state for the tree-building scenario of the spec: a hierarchy
with folders A and A B, one task in each of A and A B, and no task at the
root. -/
def scenarioState : NFolder :=
  .mk (strOf "\\") rootPath []
    (.cons
      (.mk (strOf "A") (strOf "\\A") [⟨strOf "\\A\\taskA", oldDef⟩]
        (.cons (.mk (strOf "B") (strOf "\\A\\B") [⟨strOf "\\A\\B\\taskB", oldDef⟩] .nil) .nil))
      .nil)

/-- A definition with one action and no principal identity, used as a
concrete input. -/
def c8InputDef : Definition :=
  { Actions := [.exec (strOf "C:\\x.exe") [] []] }

/-- The built tree GetTaskFolder returns on sampleState at path A: note
the Path attribute of the returned top node is the root separator, not the
requested path. -/
def c5CounterTF : TaskFolder :=
  .mk [] rootPath [⟨strOf "\\A\\t1", oldDef⟩]
    (.cons (.mk (strOf "B") (strOf "\\A\\B") [⟨strOf "\\A\\B\\t2", oldDef⟩] .nil) .nil)

mutual
/-- The first folder is a proper descendant node of the second. -/
def IsNodeIn (w : NFolder) : NFolder → Prop
  | .mk _ _ _ ss => IsNodeInL w ss
/-- The folder is a member of the list or a proper descendant of a
member. -/
def IsNodeInL (w : NFolder) : NFolderL → Prop
  | .nil => False
  | .cons f fs => w = f ∨ IsNodeIn w f ∨ IsNodeInL w fs
end

/-! ## Theorems -/

/-! ### Helper lemmas: commutation of lookups with task removal -/

/-- find? of tasks with another path is unchanged by filtering out one
path. -/
theorem find?_filter_path_ne (ts : List NTask) (q r : GoStr) (h : q ≠ r) :
    (ts.filter (fun task => task.path ≠ r)).find? (fun task => task.path = q) =
      ts.find? (fun task => task.path = q) := by
  induction ts with
  | nil => rfl
  | cons a as ih =>
    by_cases har : a.path = r
    · have haq : ¬ (a.path = q) := fun hq => h (by rw [← hq, har])
      rw [List.filter_cons_of_neg (by simp [har]),
          List.find?_cons_of_neg _ (by simp [haq])]
      exact ih
    · rw [List.filter_cons_of_pos (by simp [har])]
      by_cases haq : a.path = q
      · rw [List.find?_cons_of_pos _ (by simp [haq]),
            List.find?_cons_of_pos _ (by simp [haq])]
      · rw [List.find?_cons_of_neg _ (by simp [haq]),
            List.find?_cons_of_neg _ (by simp [haq])]
        exact ih

mutual
/-- Folder lookup commutes with task removal. -/
theorem findFolder_removeTask (p q : GoStr) : ∀ S,
    findFolder p (removeTask q S) = (findFolder p S).map (removeTask q)
  | .mk n r ts ss => by
    by_cases hr : r = p
    · simp [findFolder, removeTask, hr]
    · simp [findFolder, removeTask, hr, findFolderL_removeTaskL p q ss]
/-- Folder-list lookup commutes with task removal. -/
theorem findFolderL_removeTaskL (p q : GoStr) : ∀ L,
    findFolderL p (removeTaskL q L) = (findFolderL p L).map (removeTask q)
  | .nil => rfl
  | .cons f fs => by
    simp only [findFolderL, removeTaskL, findFolder_removeTask p q f,
      findFolderL_removeTaskL p q fs]
    rcases findFolder p f with _ | w <;> simp
end

/-- goGetFolder existence is unchanged by task removal. -/
theorem goGetFolder_removeTask_isSome (S : NFolder) (x q : GoStr) :
    (goGetFolder (removeTask q S) x).isSome = (goGetFolder S x).isSome := by
  unfold goGetFolder
  by_cases hx : x = [] <;> simp [hx, findFolder_removeTask]

mutual
/-- Task lookup by a different path is unchanged by task removal. -/
theorem findTask_removeTask (q r : GoStr) (h : q ≠ r) : ∀ S,
    findTask q (removeTask r S) = findTask q S
  | .mk n p ts ss => by
    simp only [findTask, removeTask, find?_filter_path_ne ts q r h]
    rcases hf : ts.find? (fun task => task.path = q) with _ | task
    · rw [hf]
      simp [findTaskL_removeTaskL q r h ss]
    · rw [hf]
/-- Task-list lookup by a different path is unchanged by task removal. -/
theorem findTaskL_removeTaskL (q r : GoStr) (h : q ≠ r) : ∀ L,
    findTaskL q (removeTaskL r L) = findTaskL q L
  | .nil => rfl
  | .cons f fs => by
    simp only [findTaskL, removeTaskL, findTask_removeTask q r h f,
      findTaskL_removeTaskL q r h fs]
end

/-- A path whose head is the separator contains the separator, so
lastIndexOf finds it. -/
theorem lastIndexOf_isSome_of_head (p : GoStr) (c : Char) (hp : p.head? = some c) :
    (lastIndexOf c p).isSome = true := by
  cases p with
  | nil => simp at hp
  | cons a rest =>
    simp only [List.head?_cons, Option.some.injEq] at hp
    subst hp
    unfold lastIndexOf
    rcases lastIndexOf a rest with _ | i <;> simp

/-- goGetFolder resolves the parent directory and the take-prefix of a path
to the same folder (the empty prefix of a root-level path names the root
folder, as the native service treats it). -/
theorem goGetFolder_parentDir (S : NFolder) (p : GoStr)
    (h : (lastIndexOf '\\' p).isSome = true) :
    goGetFolder S (parentDir p) =
      goGetFolder S (p.take ((lastIndexOf '\\' p).getD 0)) := by
  rcases hli : lastIndexOf '\\' p with _ | i
  · rw [hli] at h; simp at h
  · unfold parentDir
    rw [hli]
    cases i with
    | zero => simp [goGetFolder, rootPath]
    | succ j => simp

/-! ### Helper lemmas: the enumerator builds the mirror tree -/

mutual
/-- The recursive enumeration builds exactly the mirror of the native
subtree. -/
theorem enumTaskFolders_fst : ∀ nf, (enumTaskFolders nf).1 = mirrorFolder nf
  | .mk n p ts ss => by
    simp [enumTaskFolders, mirrorFolder, enumTaskFoldersL_fst ss]
/-- The recursive enumeration of a folder list builds exactly the mirror
list. -/
theorem enumTaskFoldersL_fst : ∀ L, (enumTaskFoldersL L).1 = mirrorFolderL L
  | .nil => rfl
  | .cons f fs => by
    simp [enumTaskFoldersL, mirrorFolderL, enumTaskFolders_fst f,
      enumTaskFoldersL_fst fs]
end

/-! ### Helper lemmas: basic facts about the tree operations -/

/-- Task removal keeps the root path. -/
theorem path_removeTask (q : GoStr) (S : NFolder) : (removeTask q S).path = S.path := by
  cases S; rfl

/-- Folder removal keeps the root path. -/
theorem path_removeFolder (q : GoStr) (S : NFolder) :
    (removeFolder q S).path = S.path := by
  cases S; rfl

/-- Iterated task removal keeps the root path. -/
theorem path_removeTasks (ts : List NTask) (S : NFolder) :
    (removeTasks ts S).path = S.path := by
  induction ts generalizing S with
  | nil => rfl
  | cons a rest ih =>
    show (removeTasks rest (removeTask a.path S)).path = S.path
    rw [ih, path_removeTask]

mutual
/-- Scrubbing keeps the root path. -/
theorem path_scrub (v : NFolder) : ∀ S, (scrub v S).path = S.path
  | S => by
    cases v with
    | mk vn vp vts vss =>
      rw [scrub, path_removeFolder, path_scrubL vss, path_removeTasks]
/-- Iterated scrubbing keeps the root path. -/
theorem path_scrubL (vs : NFolderL) : ∀ S, (scrubL vs S).path = S.path
  | S => by
    cases vs with
    | nil => rfl
    | cons f fs => rw [scrubL, path_scrubL fs, path_scrub f]
end

/-- When the root path differs from the query, whole-tree lookup descends
into the subfolder list. -/
theorem findFolder_eq_findFolderL (q : GoStr) (S : NFolder) (h : S.path ≠ q) :
    findFolder q S = findFolderL q S.subs := by
  cases S with
  | mk n p ts ss =>
    simp only [NFolder.path] at h
    simp [findFolder, NFolder.subs, h]

mutual
/-- A found folder's path attribute is the query. -/
theorem findFolder_path (q : GoStr) : ∀ S w, findFolder q S = some w → w.path = q
  | .mk n p ts ss, w => by
    by_cases hp : p = q
    · intro h
      simp only [findFolder, hp, if_pos] at h
      cases h
      simp [NFolder.path, hp]
    · intro h
      simp only [findFolder, hp, if_neg, if_false] at h
      exact findFolderL_path q ss w h
/-- A found folder's path attribute is the query (list version). -/
theorem findFolderL_path (q : GoStr) : ∀ L w, findFolderL q L = some w → w.path = q
  | .nil, w => by intro h; simp [findFolderL] at h
  | .cons f fs, w => by
    intro h
    simp only [findFolderL] at h
    rcases hf : findFolder q f with _ | w'
    · rw [hf] at h
      exact findFolderL_path q fs w h
    · rw [hf] at h
      cases h
      exact findFolder_path q f w hf
end

mutual
/-- A successful folder lookup means the query is among the folder
paths. -/
theorem findFolder_mem_paths (q : GoStr) : ∀ S w, findFolder q S = some w →
    q ∈ allFolderPaths S
  | .mk n p ts ss, w => by
    intro h
    by_cases hp : p = q
    · simp [allFolderPaths, hp]
    · simp only [findFolder, hp, if_neg, if_false] at h
      simp [allFolderPaths, findFolderL_mem_paths q ss w h]
/-- A successful folder lookup means the query is among the folder paths
(list version). -/
theorem findFolderL_mem_paths (q : GoStr) : ∀ L w, findFolderL q L = some w →
    q ∈ allFolderPathsL L
  | .nil, w => by intro h; simp [findFolderL] at h
  | .cons f fs, w => by
    intro h
    simp only [findFolderL] at h
    rcases hf : findFolder q f with _ | w'
    · rw [hf] at h
      simp [allFolderPathsL, findFolderL_mem_paths q fs w h]
    · rw [hf] at h
      simp [allFolderPathsL, findFolder_mem_paths q f w' hf]
end

/-- Structure of an empty folder node. -/
theorem isEmptyFolder_eq (f : NFolder) (h : f.isEmptyFolder = true) :
    f.tasks = [] ∧ f.subs = .nil := by
  cases f with
  | mk n p ts ss =>
    simp only [NFolder.isEmptyFolder, NFolder.tasks, NFolder.subs, Bool.and_eq_true] at h ⊢
    obtain ⟨h1, h2⟩ := h
    refine ⟨List.isEmpty_iff.mp h1, ?_⟩
    cases ss
    · rfl
    · simp [NFolderL.isNil] at h2

/-- An empty folder node holds no task anywhere. -/
theorem allTasks_of_empty (f : NFolder) (h : f.isEmptyFolder = true) :
    allTasks f = [] := by
  obtain ⟨h1, h2⟩ := isEmptyFolder_eq f h
  cases f with
  | mk n p ts ss =>
    simp only [NFolder.tasks] at h1
    simp only [NFolder.subs] at h2
    subst h1; subst h2
    rfl

/-- The folder paths of an empty folder node are exactly its own path. -/
theorem allFolderPaths_of_empty (f : NFolder) (h : f.isEmptyFolder = true) :
    allFolderPaths f = [f.path] := by
  obtain ⟨h1, h2⟩ := isEmptyFolder_eq f h
  cases f with
  | mk n p ts ss =>
    simp only [NFolder.subs] at h2
    subst h2
    rfl

mutual
/-- Task removal filters the depth-first task enumeration. -/
theorem allTasks_removeTask (q : GoStr) : ∀ S,
    allTasks (removeTask q S) = (allTasks S).filter (fun nt => nt.path ≠ q)
  | .mk n p ts ss => by
    simp [allTasks, removeTask, List.filter_append, allTasksL_removeTaskL q ss]
/-- Task removal filters the depth-first task enumeration (list
version). -/
theorem allTasksL_removeTaskL (q : GoStr) : ∀ L,
    allTasksL (removeTaskL q L) = (allTasksL L).filter (fun nt => nt.path ≠ q)
  | .nil => rfl
  | .cons f fs => by
    simp [allTasksL, removeTaskL, List.filter_append, allTasks_removeTask q f,
      allTasksL_removeTaskL q fs]
end

mutual
/-- Task removal keeps the folder paths. -/
theorem allFolderPaths_removeTask (q : GoStr) : ∀ S,
    allFolderPaths (removeTask q S) = allFolderPaths S
  | .mk n p ts ss => by
    simp [allFolderPaths, removeTask, allFolderPathsL_removeTaskL q ss]
/-- Task removal keeps the folder paths (list version). -/
theorem allFolderPathsL_removeTaskL (q : GoStr) : ∀ L,
    allFolderPathsL (removeTaskL q L) = allFolderPathsL L
  | .nil => rfl
  | .cons f fs => by
    simp [allFolderPathsL, removeTaskL, allFolderPaths_removeTask q f,
      allFolderPathsL_removeTaskL q fs]
end

mutual
/-- Folder removal drops only empty nodes, so it keeps the task
enumeration. -/
theorem allTasks_removeFolder (q : GoStr) : ∀ S,
    allTasks (removeFolder q S) = allTasks S
  | .mk n p ts ss => by
    simp [allTasks, removeFolder, allTasksL_removeFolderL q ss]
/-- Folder removal keeps the task enumeration (list version). -/
theorem allTasksL_removeFolderL (q : GoStr) : ∀ L,
    allTasksL (removeFolderL q L) = allTasksL L
  | .nil => rfl
  | .cons f fs => by
    by_cases hc : f.path = q ∧ f.isEmptyFolder = true
    · rw [removeFolderL, if_pos hc]
      rw [allTasksL_removeFolderL q fs]
      simp [allTasksL, allTasks_of_empty f hc.2]
    · rw [removeFolderL, if_neg hc]
      simp [allTasksL, allTasks_removeFolder q f, allTasksL_removeFolderL q fs]
end

mutual
/-- Folder removal shrinks the folder-path enumeration. -/
theorem allFolderPaths_removeFolder (q : GoStr) : ∀ S,
    (allFolderPaths (removeFolder q S)).Sublist (allFolderPaths S)
  | .mk n p ts ss => by
    simp only [allFolderPaths, removeFolder]
    exact (allFolderPathsL_removeFolderL q ss).cons₂ p
/-- Folder removal shrinks the folder-path enumeration (list version). -/
theorem allFolderPathsL_removeFolderL (q : GoStr) : ∀ L,
    (allFolderPathsL (removeFolderL q L)).Sublist (allFolderPathsL L)
  | .nil => List.Sublist.refl _
  | .cons f fs => by
    by_cases hc : f.path = q ∧ f.isEmptyFolder = true
    · rw [removeFolderL, if_pos hc]
      simp only [allFolderPathsL]
      exact (allFolderPathsL_removeFolderL q fs).trans (List.sublist_append_right _ _)
    · rw [removeFolderL, if_neg hc]
      simp only [allFolderPathsL]
      exact (allFolderPaths_removeFolder q f).append (allFolderPathsL_removeFolderL q fs)
end

mutual
/-- Lookup of a different path commutes with folder removal. -/
theorem findFolder_removeFolder (p q : GoStr) (hpq : p ≠ q) : ∀ S,
    findFolder p (removeFolder q S) = (findFolder p S).map (removeFolder q)
  | .mk n r ts ss => by
    by_cases hr : r = p
    · simp [findFolder, removeFolder, hr]
    · simp [findFolder, removeFolder, hr, findFolderL_removeFolderL p q hpq ss]
/-- Lookup of a different path commutes with folder removal (list
version). -/
theorem findFolderL_removeFolderL (p q : GoStr) (hpq : p ≠ q) : ∀ L,
    findFolderL p (removeFolderL q L) = (findFolderL p L).map (removeFolder q)
  | .nil => rfl
  | .cons f fs => by
    by_cases hc : f.path = q ∧ f.isEmptyFolder = true
    · rw [removeFolderL, if_pos hc]
      have hnone : findFolder p f = none := by
        obtain ⟨h1, h2⟩ := isEmptyFolder_eq f hc.2
        cases f with
        | mk fn fp fts fss =>
          simp only [NFolder.path] at hc
          simp only [NFolder.subs] at h2
          subst h2
          simp [findFolder, findFolderL, hc.1, hpq.symm]
      simp only [findFolderL, hnone]
      exact findFolderL_removeFolderL p q hpq fs
    · rw [removeFolderL, if_neg hc]
      simp only [findFolderL, findFolder_removeFolder p q hpq f]
      rcases hf : findFolder p f with _ | w
      · simp only [Option.map_none]
        exact findFolderL_removeFolderL p q hpq fs
      · simp
end

mutual
/-- A folder lookup fails exactly when the path names no node. -/
theorem findFolder_eq_none_iff (q : GoStr) : ∀ S,
    findFolder q S = none ↔ q ∉ allFolderPaths S
  | .mk n p ts ss => by
    by_cases hp : p = q
    · simp [findFolder, allFolderPaths, hp]
    · have hqp : ¬ q = p := fun h => hp h.symm
      simp only [findFolder, hp, if_false, allFolderPaths, List.mem_cons, not_or]
      rw [findFolderL_eq_none_iff q ss]
      simp [hqp]
/-- A folder-list lookup fails exactly when the path names no node. -/
theorem findFolderL_eq_none_iff (q : GoStr) : ∀ L,
    findFolderL q L = none ↔ q ∉ allFolderPathsL L
  | .nil => by simp [findFolderL, allFolderPathsL]
  | .cons f fs => by
    simp only [findFolderL, allFolderPathsL, List.mem_append]
    rcases hf : findFolder q f with _ | w
    · have : q ∉ allFolderPaths f := (findFolder_eq_none_iff q f).mp hf
      simp [this, findFolderL_eq_none_iff q fs]
    · have : q ∈ allFolderPaths f := findFolder_mem_paths q f w hf
      simp [this]
end

mutual
/-- Removing a task path that occurs nowhere is the identity. -/
theorem removeTask_eq_self (q : GoStr) : ∀ w, q ∉ allTaskPaths w → removeTask q w = w
  | .mk n p ts ss => by
    intro h
    simp only [allTaskPaths, allTasks, List.map_append, List.mem_append, not_or] at h
    obtain ⟨h1, h2⟩ := h
    rw [removeTask]
    congr 1
    · rw [List.filter_eq_self]
      intro a ha
      simp only [ne_eq, decide_not, Bool.not_eq_eq_eq_not, Bool.not_true,
        decide_eq_false_iff_not]
      exact fun hq => h1 (hq ▸ List.mem_map_of_mem (fun nt => nt.path) ha)
    · exact removeTaskL_eq_self q ss h2
/-- Removing a task path that occurs nowhere is the identity (list
version). -/
theorem removeTaskL_eq_self (q : GoStr) : ∀ L,
    q ∉ (allTasksL L).map (fun nt => nt.path) → removeTaskL q L = L
  | .nil => fun _ => rfl
  | .cons f fs => by
    intro h
    simp only [allTasksL, List.map_append, List.mem_append, not_or] at h
    rw [removeTaskL, removeTask_eq_self q f h.1, removeTaskL_eq_self q fs h.2]
end

mutual
/-- Removing a folder path that occurs nowhere is the identity. -/
theorem removeFolder_eq_self (q : GoStr) : ∀ w, q ∉ allFolderPaths w →
    removeFolder q w = w
  | .mk n p ts ss => by
    intro h
    simp only [allFolderPaths, List.mem_cons, not_or] at h
    rw [removeFolder, removeFolderL_eq_self q ss h.2]
/-- Removing a folder path that occurs nowhere is the identity (list
version). -/
theorem removeFolderL_eq_self (q : GoStr) : ∀ L, q ∉ allFolderPathsL L →
    removeFolderL q L = L
  | .nil => fun _ => rfl
  | .cons f fs => by
    intro h
    simp only [allFolderPathsL, List.mem_append, not_or] at h
    have hne : ¬(f.path = q ∧ f.isEmptyFolder = true) := by
      rintro ⟨h1, _⟩
      exact h.1 (by
        cases f with
        | mk fn fp fts fss =>
          simp only [NFolder.path] at h1
          simp [allFolderPaths, h1])
    rw [removeFolderL, if_neg hne, removeFolder_eq_self q f h.1,
      removeFolderL_eq_self q fs h.2]
end

mutual
/-- A task lookup succeeds exactly when the path names a task. -/
theorem findTask_isSome_iff (q : GoStr) : ∀ S,
    (findTask q S).isSome = true ↔ q ∈ allTaskPaths S
  | .mk n p ts ss => by
    simp only [findTask]
    rcases hf : ts.find? (fun task => task.path = q) with _ | task
    · rw [hf]
      have hnot : q ∉ ts.map (fun nt => nt.path) := by
        intro hq
        obtain ⟨nt, hmem, hpath⟩ := List.mem_map.mp hq
        have h2 := List.find?_eq_none.mp hf nt hmem
        simp [hpath] at h2
      have hiff := findTaskL_isSome_iff q ss
      simp only [allTaskPaths, allTasks, List.map_append, List.mem_append] at *
      simp [hnot, hiff]
    · rw [hf]
      have hq : task.path = q := by simpa using List.find?_some hf
      have hmem : q ∈ ts.map (fun nt => nt.path) :=
        hq ▸ List.mem_map_of_mem (fun nt => nt.path) (List.mem_of_find?_eq_some hf)
      simp only [allTaskPaths, allTasks, List.map_append, List.mem_append]
      simp [hmem]
/-- A task-list lookup succeeds exactly when the path names a task. -/
theorem findTaskL_isSome_iff (q : GoStr) : ∀ L,
    (findTaskL q L).isSome = true ↔ q ∈ (allTasksL L).map (fun nt => nt.path)
  | .nil => by simp [findTaskL, allTasksL]
  | .cons f fs => by
    simp only [findTaskL, allTasksL, List.map_append, List.mem_append]
    rcases hf : findTask q f with _ | task
    · have : q ∉ allTaskPaths f := by
        intro hq
        have := (findTask_isSome_iff q f).mpr hq
        rw [hf] at this
        simp at this
      simp only [allTaskPaths] at this
      simpa [this] using findTaskL_isSome_iff q fs
    · have : q ∈ allTaskPaths f := (findTask_isSome_iff q f).mp (by simp [hf])
      simp only [allTaskPaths] at this
      simp [this]
end

mutual
/-- The tasks of a found folder form a sublist of the tree's tasks. -/
theorem findFolder_allTasks_sublist (q : GoStr) : ∀ S w, findFolder q S = some w →
    (allTasks w).Sublist (allTasks S)
  | .mk n p ts ss, w => by
    intro h
    by_cases hp : p = q
    · simp only [findFolder, hp, if_pos] at h
      cases h
      exact List.Sublist.refl _
    · simp only [findFolder, hp, if_neg, if_false] at h
      exact (findFolderL_allTasksL_sublist q ss w h).trans
        (List.sublist_append_right _ _)
/-- The tasks of a found folder form a sublist of the list's tasks. -/
theorem findFolderL_allTasksL_sublist (q : GoStr) : ∀ L w, findFolderL q L = some w →
    (allTasks w).Sublist (allTasksL L)
  | .nil, w => by intro h; simp [findFolderL] at h
  | .cons f fs, w => by
    intro h
    simp only [findFolderL] at h
    rcases hf : findFolder q f with _ | w'
    · rw [hf] at h
      exact (findFolderL_allTasksL_sublist q fs w h).trans
        (List.sublist_append_right _ _)
    · rw [hf] at h
      cases h
      exact (findFolder_allTasks_sublist q f w hf).trans
        (List.sublist_append_left _ _)
end

mutual
/-- The folder paths of a found folder form a sublist of the tree's folder
paths. -/
theorem findFolder_allFolderPaths_sublist (q : GoStr) : ∀ S w,
    findFolder q S = some w → (allFolderPaths w).Sublist (allFolderPaths S)
  | .mk n p ts ss, w => by
    intro h
    by_cases hp : p = q
    · subst hp
      simp only [findFolder, if_pos] at h
      cases h
      exact List.Sublist.refl _
    · simp only [findFolder, hp, if_neg, if_false] at h
      exact ((findFolderL_allFolderPathsL_sublist q ss w h).trans
        (List.sublist_cons_self _ _))
/-- The folder paths of a found folder form a sublist of the list's folder
paths. -/
theorem findFolderL_allFolderPathsL_sublist (q : GoStr) : ∀ L w,
    findFolderL q L = some w → (allFolderPaths w).Sublist (allFolderPathsL L)
  | .nil, w => by intro h; simp [findFolderL] at h
  | .cons f fs, w => by
    intro h
    simp only [findFolderL] at h
    rcases hf : findFolder q f with _ | w'
    · rw [hf] at h
      exact (findFolderL_allFolderPathsL_sublist q fs w h).trans
        (List.sublist_append_right _ _)
    · rw [hf] at h
      cases h
      exact (findFolder_allFolderPaths_sublist q f w hf).trans
        (List.sublist_append_left _ _)
end

/-! ### Helper lemmas: nodes, membership and uniqueness -/

/-- The folder-path enumeration starts with the root path. -/
theorem allFolderPaths_eq (S : NFolder) :
    allFolderPaths S = S.path :: allFolderPathsL S.subs := by
  cases S; rfl

/-- A folder's own path is among its folder paths. -/
theorem path_mem_allFolderPaths (w : NFolder) : w.path ∈ allFolderPaths w := by
  rw [allFolderPaths_eq]
  exact List.mem_cons_self _ _

/-- Lookup of a folder's own path at its root finds the folder itself. -/
theorem findFolder_self (w : NFolder) : findFolder w.path w = some w := by
  cases w with
  | mk n p ts ss => simp [findFolder, NFolder.path]

mutual
/-- A found folder is the root or a proper descendant node. -/
theorem findFolder_isNodeIn (q : GoStr) : ∀ S w, findFolder q S = some w →
    w = S ∨ IsNodeIn w S
  | .mk n p ts ss, w => by
    intro h
    by_cases hp : p = q
    · subst hp
      simp only [findFolder, if_pos] at h
      cases h
      exact Or.inl rfl
    · simp only [findFolder, hp, if_neg, if_false] at h
      exact Or.inr (findFolderL_isNodeInL q ss w h)
/-- A folder found in a list is a node reachable from the list. -/
theorem findFolderL_isNodeInL (q : GoStr) : ∀ L w, findFolderL q L = some w →
    IsNodeInL w L
  | .nil, w => by intro h; simp [findFolderL] at h
  | .cons f fs, w => by
    intro h
    simp only [findFolderL] at h
    rcases hf : findFolder q f with _ | w'
    · rw [hf] at h
      exact Or.inr (Or.inr (findFolderL_isNodeInL q fs w h))
    · rw [hf] at h
      cases h
      rcases findFolder_isNodeIn q f w hf with heq | hin
      · exact Or.inl heq
      · exact Or.inr (Or.inl hin)
end

mutual
/-- The path of a proper descendant node is among the folder paths. -/
theorem isNodeIn_mem_paths (w : NFolder) : ∀ S, IsNodeIn w S →
    w.path ∈ allFolderPaths S
  | .mk n p ts ss => by
    intro h
    simp only [IsNodeIn] at h
    rw [allFolderPaths]
    exact List.mem_cons_of_mem _ (isNodeInL_mem_paths w ss h)
/-- The path of a reachable node is among the list's folder paths. -/
theorem isNodeInL_mem_paths (w : NFolder) : ∀ L, IsNodeInL w L →
    w.path ∈ allFolderPathsL L
  | .nil => by intro h; simp [IsNodeInL] at h
  | .cons f fs => by
    intro h
    simp only [IsNodeInL] at h
    simp only [allFolderPathsL, List.mem_append]
    rcases h with rfl | hin | hl
    · exact Or.inl (path_mem_allFolderPaths w)
    · exact Or.inl (isNodeIn_mem_paths w f hin)
    · exact Or.inr (isNodeInL_mem_paths w fs hl)
end

mutual
/-- Node reachability is transitive. -/
theorem isNodeIn_trans (w' w : NFolder) : ∀ S, IsNodeIn w' w → IsNodeIn w S →
    IsNodeIn w' S
  | .mk n p ts ss => by
    intro h1 h2
    simp only [IsNodeIn] at h2 ⊢
    exact isNodeInL_trans w' w ss h1 h2
/-- Node reachability is transitive (list version). -/
theorem isNodeInL_trans (w' w : NFolder) : ∀ L, IsNodeIn w' w → IsNodeInL w L →
    IsNodeInL w' L
  | .nil => by intro h1 h2; simp [IsNodeInL] at h2
  | .cons f fs => by
    intro h1 h2
    simp only [IsNodeInL] at h2 ⊢
    rcases h2 with rfl | hin | hl
    · exact Or.inr (Or.inl h1)
    · exact Or.inr (Or.inl (isNodeIn_trans w' w f h1 hin))
    · exact Or.inr (Or.inr (isNodeInL_trans w' w fs h1 hl))
end

mutual
/-- Under distinct folder paths, looking up the path of a proper descendant
node finds exactly that node. -/
theorem findFolder_of_isNodeIn (w : NFolder) : ∀ S, IsNodeIn w S →
    (allFolderPaths S).Nodup → findFolder w.path S = some w
  | .mk n p ts ss => by
    intro h hn
    simp only [IsNodeIn] at h
    rw [allFolderPaths] at hn
    have hmem : w.path ∈ allFolderPathsL ss := isNodeInL_mem_paths w ss h
    have hp : p ≠ w.path := by
      intro hpw
      exact (List.nodup_cons.mp hn).1 (hpw ▸ hmem)
    simp only [findFolder, hp, if_neg, if_false]
    exact findFolderL_of_isNodeInL w ss h (List.nodup_cons.mp hn).2
/-- Under distinct folder paths, looking up the path of a reachable node in
a list finds exactly that node. -/
theorem findFolderL_of_isNodeInL (w : NFolder) : ∀ L, IsNodeInL w L →
    (allFolderPathsL L).Nodup → findFolderL w.path L = some w
  | .nil => by intro h _; simp [IsNodeInL] at h
  | .cons f fs => by
    intro h hn
    simp only [allFolderPathsL] at hn
    have hn1 : (allFolderPaths f).Nodup := (List.nodup_append.mp hn).1
    have hn2 : (allFolderPathsL fs).Nodup := (List.nodup_append.mp hn).2.1
    have hdisj := (List.nodup_append.mp hn).2.2
    simp only [IsNodeInL] at h
    rcases h with rfl | hin | hl
    · simp [findFolderL, findFolder_self w]
    · simp [findFolderL, findFolder_of_isNodeIn w f hin hn1]
    · have hmem : w.path ∈ allFolderPathsL fs := isNodeInL_mem_paths w fs hl
      have hnone : findFolder w.path f = none := by
        rw [findFolder_eq_none_iff]
        intro hmf
        exact hdisj hmf hmem
      simp only [findFolderL, hnone]
      exact findFolderL_of_isNodeInL w fs hl hn2
end

/-- Under distinct folder paths, the head child of a found folder is itself
found by its own path. -/
theorem findFolderL_child (S : NFolder) (q n : GoStr) (ts : List NTask)
    (g : NFolder) (gs : NFolderL) (HF : FoldersNodup S)
    (hq : findFolderL q S.subs = some (.mk n q ts (.cons g gs))) :
    findFolderL g.path S.subs = some g := by
  have h1 : IsNodeInL (NFolder.mk n q ts (.cons g gs)) S.subs :=
    findFolderL_isNodeInL q S.subs _ hq
  have h2 : IsNodeIn g (NFolder.mk n q ts (.cons g gs)) := by
    simp [IsNodeIn, IsNodeInL]
  have h3 : IsNodeInL g S.subs := isNodeInL_trans g _ S.subs h2 h1
  have hn : (allFolderPathsL S.subs).Nodup := by
    have := HF
    rw [FoldersNodup, allFolderPaths_eq] at this
    exact (List.nodup_cons.mp this).2
  exact findFolderL_of_isNodeInL g S.subs h3 hn

/-! ### Helper lemmas: iterated task removal -/

/-- Folder lookup commutes with iterated task removal. -/
theorem findFolder_removeTasks (ts : List NTask) (p : GoStr) (S : NFolder) :
    findFolder p (removeTasks ts S) = (findFolder p S).map (removeTasks ts) := by
  induction ts generalizing S with
  | nil =>
    rcases hf : findFolder p S with _ | w <;> simp [removeTasks, hf]
  | cons a rest ih =>
    show findFolder p (removeTasks rest (removeTask a.path S)) = _
    rw [ih, findFolder_removeTask]
    rcases hf : findFolder p S with _ | w <;> simp [hf] <;> rfl

/-- Iterated task removal shrinks the task enumeration. -/
theorem allTasks_removeTasks_sublist (ts : List NTask) (S : NFolder) :
    (allTasks (removeTasks ts S)).Sublist (allTasks S) := by
  induction ts generalizing S with
  | nil => exact List.Sublist.refl _
  | cons a rest ih =>
    refine (ih (removeTask a.path S)).trans ?_
    rw [allTasks_removeTask]
    exact List.filter_sublist _

/-- Iterated task removal shrinks the task-path enumeration. -/
theorem allTaskPaths_removeTasks_sublist (ts : List NTask) (S : NFolder) :
    (allTaskPaths (removeTasks ts S)).Sublist (allTaskPaths S) :=
  (allTasks_removeTasks_sublist ts S).map _

/-- Iterated task removal keeps the folder paths. -/
theorem allFolderPaths_removeTasks (ts : List NTask) (S : NFolder) :
    allFolderPaths (removeTasks ts S) = allFolderPaths S := by
  induction ts generalizing S with
  | nil => rfl
  | cons a rest ih =>
    show allFolderPaths (removeTasks rest (removeTask a.path S)) = _
    rw [ih, allFolderPaths_removeTask]

/-- Task lookup of an untouched path is unchanged by iterated task
removal. -/
theorem findTask_removeTasks_ne (ts : List NTask) (q : GoStr)
    (h : q ∉ ts.map (fun nt => nt.path)) (S : NFolder) :
    findTask q (removeTasks ts S) = findTask q S := by
  induction ts generalizing S with
  | nil => rfl
  | cons a rest ih =>
    simp only [List.map_cons, List.mem_cons, not_or] at h
    show findTask q (removeTasks rest (removeTask a.path S)) = _
    rw [ih h.2, findTask_removeTask q a.path h.1]

/-- Iterated task removal removes every listed path. -/
theorem removeTasks_not_mem_paths (ts : List NTask) (S : NFolder) :
    ∀ r ∈ ts.map (fun nt => nt.path), r ∉ allTaskPaths (removeTasks ts S) := by
  induction ts generalizing S with
  | nil => intro r hr; simp at hr
  | cons a rest ih =>
    intro r hr
    simp only [List.map_cons, List.mem_cons] at hr
    rcases hr with rfl | hr
    · have h1 : a.path ∉ allTaskPaths (removeTask a.path S) := by
        rw [allTaskPaths, allTasks_removeTask]
        intro hmem
        obtain ⟨nt, hnt, hp⟩ := List.mem_map.mp hmem
        have := List.of_mem_filter hnt
        simp [hp] at this
      intro hmem
      exact h1 ((allTaskPaths_removeTasks_sublist rest (removeTask a.path S)).mem hmem)
    · exact ih (removeTask a.path S) r hr

/-- Removing a path-wise disjoint task list distributes into the head child
of a node, leaving the node's own tasks and the remaining children
untouched. -/
theorem removeTasks_cons_lift (ts' : List NTask) (n q : GoStr) (ts : List NTask)
    (W : NFolder) (vs : NFolderL)
    (h1 : ∀ a ∈ ts', a.path ∉ ts.map (fun nt => nt.path))
    (h2 : ∀ a ∈ ts', a.path ∉ (allTasksL vs).map (fun nt => nt.path)) :
    removeTasks ts' (.mk n q ts (.cons W vs)) = .mk n q ts (.cons (removeTasks ts' W) vs) := by
  induction ts' generalizing W with
  | nil => rfl
  | cons a rest ih =>
    have hstep : removeTask a.path (NFolder.mk n q ts (.cons W vs)) =
        .mk n q ts (.cons (removeTask a.path W) vs) := by
      rw [removeTask]
      congr 1
      · rw [List.filter_eq_self]
        intro x hx
        simp only [ne_eq, decide_not, Bool.not_eq_eq_eq_not, Bool.not_true,
          decide_eq_false_iff_not]
        intro hxa
        exact h1 a (List.mem_cons_self _ _) (List.mem_map.mpr ⟨x, hx, hxa⟩)
      · rw [removeTaskL]
        rw [removeTaskL_eq_self a.path vs (h2 a (List.mem_cons_self _ _))]
    show removeTasks rest (removeTask a.path (NFolder.mk n q ts (.cons W vs))) = _
    rw [hstep]
    exact ih (removeTask a.path W)
      (fun x hx => h1 x (List.mem_cons_of_mem _ hx))
      (fun x hx => h2 x (List.mem_cons_of_mem _ hx))

/-- Removing a node's own task list from itself empties its tasks and
leaves deeper tasks untouched. -/
theorem removeTasks_self (ts : List NTask) (n p : GoStr) (ss : NFolderL)
    (hn : (ts.map (fun nt => nt.path)).Nodup)
    (hd : ∀ a ∈ ts, a.path ∉ (allTasksL ss).map (fun nt => nt.path)) :
    removeTasks ts (.mk n p ts ss) = .mk n p [] ss := by
  induction ts with
  | nil => rfl
  | cons a rest ih =>
    have hstep : removeTask a.path (NFolder.mk n p (a :: rest) ss) =
        .mk n p rest ss := by
      rw [removeTask]
      congr 1
      · rw [List.filter_cons_of_neg (by simp)]
        rw [List.filter_eq_self]
        intro x hx
        simp only [ne_eq, decide_not, Bool.not_eq_eq_eq_not, Bool.not_true,
          decide_eq_false_iff_not]
        intro hxa
        exact (List.nodup_cons.mp hn).1 (List.mem_map.mpr ⟨x, hx, hxa⟩)
      · exact removeTaskL_eq_self a.path ss (hd a (List.mem_cons_self _ _))
    show removeTasks rest (removeTask a.path (NFolder.mk n p (a :: rest) ss)) = _
    rw [hstep]
    exact ih (List.nodup_cons.mp hn).2 (fun x hx => hd x (List.mem_cons_of_mem _ hx))

/-! ### Helper lemmas: the scrub transformation -/

mutual
/-- Scrubbing shrinks the task enumeration. -/
theorem allTasks_scrub_sublist (v : NFolder) : ∀ S,
    (allTasks (scrub v S)).Sublist (allTasks S)
  | S => by
    cases v with
    | mk vn vp vts vss =>
      rw [scrub, allTasks_removeFolder]
      exact (allTasks_scrubL_sublist vss (removeTasks vts S)).trans
        (allTasks_removeTasks_sublist vts S)
/-- Iterated scrubbing shrinks the task enumeration. -/
theorem allTasks_scrubL_sublist (vs : NFolderL) : ∀ S,
    (allTasks (scrubL vs S)).Sublist (allTasks S)
  | S => by
    cases vs with
    | nil => exact List.Sublist.refl _
    | cons f fs =>
      rw [scrubL]
      exact (allTasks_scrubL_sublist fs (scrub f S)).trans
        (allTasks_scrub_sublist f S)
end

mutual
/-- Scrubbing shrinks the folder-path enumeration. -/
theorem allFolderPaths_scrub_sublist (v : NFolder) : ∀ S,
    (allFolderPaths (scrub v S)).Sublist (allFolderPaths S)
  | S => by
    cases v with
    | mk vn vp vts vss =>
      rw [scrub]
      refine (allFolderPaths_removeFolder vp _).trans ?_
      refine (allFolderPaths_scrubL_sublist vss (removeTasks vts S)).trans ?_
      rw [allFolderPaths_removeTasks]
/-- Iterated scrubbing shrinks the folder-path enumeration. -/
theorem allFolderPaths_scrubL_sublist (vs : NFolderL) : ∀ S,
    (allFolderPaths (scrubL vs S)).Sublist (allFolderPaths S)
  | S => by
    cases vs with
    | nil => exact List.Sublist.refl _
    | cons f fs =>
      rw [scrubL]
      exact (allFolderPaths_scrubL_sublist fs (scrub f S)).trans
        (allFolderPaths_scrub_sublist f S)
end

mutual
/-- Lookup of a path outside the scrubbed subtree commutes with
scrubbing. -/
theorem findFolder_scrub (q : GoStr) : ∀ v, q ∉ allFolderPaths v → ∀ S,
    findFolder q (scrub v S) = (findFolder q S).map (scrub v)
  | .mk vn vp vts vss => by
    intro hq S
    simp only [allFolderPaths, List.mem_cons, not_or] at hq
    rw [scrub, findFolder_removeFolder q vp hq.1,
      findFolder_scrubL q vss hq.2 (removeTasks vts S), findFolder_removeTasks]
    rcases hf : findFolder q S with _ | w
    · rfl
    · rfl
/-- Lookup of a path outside the scrubbed subtrees commutes with iterated
scrubbing. -/
theorem findFolder_scrubL (q : GoStr) : ∀ vs, q ∉ allFolderPathsL vs → ∀ S,
    findFolder q (scrubL vs S) = (findFolder q S).map (scrubL vs)
  | .nil => by
    intro _ S
    rcases hf : findFolder q S with _ | w <;> simp [scrubL, hf]
  | .cons f fs => by
    intro hq S
    simp only [allFolderPathsL, List.mem_append, not_or] at hq
    rw [scrubL, findFolder_scrubL q fs hq.2 (scrub f S), findFolder_scrub q f hq.1 S]
    rcases hf : findFolder q S with _ | w
    · rfl
    · rfl
end

/-- Removing a folder path that names neither the head child nor any node
of the remaining children distributes into the head child. -/
theorem removeFolder_cons_lift (gp n q : GoStr) (ts : List NTask) (W : NFolder)
    (vs : NFolderL) (h1 : gp ∉ allFolderPathsL vs) (h2 : W.path ≠ gp) :
    removeFolder gp (.mk n q ts (.cons W vs)) =
      .mk n q ts (.cons (removeFolder gp W) vs) := by
  rw [removeFolder, removeFolderL, if_neg (fun hc => h2 hc.1),
    removeFolderL_eq_self gp vs h1]

mutual
/-- Scrubbing a subtree whose paths are disjoint from a node's own tasks
and from its remaining children distributes into the head child. -/
theorem liftScrub (g : NFolder) : ∀ n q ts W vs,
    (∀ r ∈ allTaskPaths g, r ∉ ts.map (fun nt => nt.path)) →
    (∀ r ∈ allTaskPaths g, r ∉ (allTasksL vs).map (fun nt => nt.path)) →
    (∀ fp ∈ allFolderPaths g, fp ∉ allFolderPathsL vs) →
    (∀ fp ∈ allFolderPaths g, fp ≠ W.path) →
    scrub g (.mk n q ts (.cons W vs)) = .mk n q ts (.cons (scrub g W) vs)
  | n, q, ts, W, vs => by
    intro h1 h2 h3 h4
    cases g with
    | mk gn gp gts gss =>
      have hts : ∀ a ∈ gts, a.path ∈ allTaskPaths (NFolder.mk gn gp gts gss) := by
        intro a ha
        rw [allTaskPaths, allTasks]
        exact List.mem_map_of_mem _ (List.mem_append_left _ ha)
      have hdeep : ∀ r ∈ (allTasksL gss).map (fun nt => nt.path),
          r ∈ allTaskPaths (NFolder.mk gn gp gts gss) := by
        intro r hr
        rw [allTaskPaths, allTasks, List.map_append]
        exact List.mem_append_right _ hr
      have hfdeep : ∀ fp ∈ allFolderPathsL gss,
          fp ∈ allFolderPaths (NFolder.mk gn gp gts gss) := by
        intro fp hfp
        rw [allFolderPaths]
        exact List.mem_cons_of_mem _ hfp
      have hgp : gp ∈ allFolderPaths (NFolder.mk gn gp gts gss) := by
        rw [allFolderPaths]
        exact List.mem_cons_self _ _
      rw [scrub]
      rw [removeTasks_cons_lift gts n q ts W vs
        (fun a ha => h1 a.path (hts a ha))
        (fun a ha => h2 a.path (hts a ha))]
      rw [liftScrubL gss n q ts (removeTasks gts W) vs
        (fun r hr => h1 r (hdeep r hr))
        (fun r hr => h2 r (hdeep r hr))
        (fun fp hfp => h3 fp (hfdeep fp hfp))
        (fun fp hfp => by rw [path_removeTasks]; exact h4 fp (hfdeep fp hfp))]
      rw [removeFolder_cons_lift gp n q ts _ vs (h3 gp hgp)
        (by rw [path_scrubL, path_removeTasks]; exact (h4 gp hgp).symm)]
      rw [scrub]
/-- Iterated scrubbing with disjoint paths distributes into the head
child. -/
theorem liftScrubL (gs : NFolderL) : ∀ n q ts W vs,
    (∀ r ∈ allTaskPathsL gs, r ∉ ts.map (fun nt => nt.path)) →
    (∀ r ∈ allTaskPathsL gs, r ∉ (allTasksL vs).map (fun nt => nt.path)) →
    (∀ fp ∈ allFolderPathsL gs, fp ∉ allFolderPathsL vs) →
    (∀ fp ∈ allFolderPathsL gs, fp ≠ W.path) →
    scrubL gs (.mk n q ts (.cons W vs)) = .mk n q ts (.cons (scrubL gs W) vs)
  | n, q, ts, W, vs => by
    intro h1 h2 h3 h4
    cases gs with
    | nil => rfl
    | cons g tl => ?_
    have hg : ∀ r ∈ allTaskPaths g, r ∈ allTaskPathsL (NFolderL.cons g tl) := by
      intro r hr
      rw [allTaskPathsL, allTasksL, List.map_append]
      exact List.mem_append_left _ hr
    have htl : ∀ r ∈ allTaskPathsL tl, r ∈ allTaskPathsL (NFolderL.cons g tl) := by
      intro r hr
      rw [allTaskPathsL, allTasksL, List.map_append]
      exact List.mem_append_right _ hr
    have hfg : ∀ fp ∈ allFolderPaths g, fp ∈ allFolderPathsL (NFolderL.cons g tl) := by
      intro fp hfp
      rw [allFolderPathsL]
      exact List.mem_append_left _ hfp
    have hftl : ∀ fp ∈ allFolderPathsL tl,
        fp ∈ allFolderPathsL (NFolderL.cons g tl) := by
      intro fp hfp
      rw [allFolderPathsL]
      exact List.mem_append_right _ hfp
    rw [scrubL]
    rw [liftScrub g n q ts W vs
      (fun r hr => h1 r (hg r hr)) (fun r hr => h2 r (hg r hr))
      (fun fp hfp => h3 fp (hfg fp hfp)) (fun fp hfp => h4 fp (hfg fp hfp))]
    rw [liftScrubL tl n q ts (scrub g W) vs
      (fun r hr => h1 r (htl r hr)) (fun r hr => h2 r (htl r hr))
      (fun fp hfp => h3 fp (hftl fp hfp))
      (fun fp hfp => by rw [path_scrub]; exact h4 fp (hftl fp hfp))]
    rw [scrubL]
end

mutual
/-- Scrubbing a node that is the head child of a tree's root removes
exactly that child, under distinct task and folder paths. -/
theorem scrub_self (v : NFolder) : ∀ n q ts vs,
    TasksNodup (.mk n q ts (.cons v vs)) →
    FoldersNodup (.mk n q ts (.cons v vs)) →
    scrub v (.mk n q ts (.cons v vs)) = .mk n q ts vs
  | n, q, ts, vs => by
    intro hT hF
    cases v with
    | mk vn vp vts vss => ?_
    rw [TasksNodup, allTaskPaths] at hT
    simp only [allTasks, allTasksL, List.map_append] at hT
    rw [FoldersNodup] at hF
    simp only [allFolderPaths, allFolderPathsL] at hF
    have h1 := List.nodup_append.mp hT
    have h2 := List.nodup_append.mp h1.2.1
    have h3 := List.nodup_append.mp h2.1
    have hf1 := List.nodup_cons.mp hF
    have hf2 := List.nodup_append.mp hf1.2
    have hf3 := List.nodup_cons.mp hf2.1
    -- step a: remove the node's own tasks
    rw [scrub]
    rw [removeTasks_cons_lift vts n q ts _ vs
      (fun a ha => fun hmem =>
        h1.2.2 hmem (List.mem_append_left _ (List.mem_append_left _
          (List.mem_map_of_mem _ ha))))
      (fun a ha =>
        h2.2.2 (List.mem_append_left _ (List.mem_map_of_mem _ ha)))]
    rw [removeTasks_self vts vn vp vss h3.1
      (fun a ha => h3.2.2 (List.mem_map_of_mem _ ha))]
    -- step b: scrub the node's children in place
    rw [liftScrubL vss n q ts _ vs
      (fun r hr => fun hmem =>
        h1.2.2 hmem (List.mem_append_left _ (List.mem_append_right _ hr)))
      (fun r hr => h2.2.2 (List.mem_append_right _ hr))
      (fun fp hfp => hf2.2.2 (List.mem_cons_of_mem _ hfp))
      (fun fp hfp => by
        simp only [NFolder.path]
        intro heq
        exact hf3.1 (heq ▸ hfp))]
    rw [scrubL_self vss vn vp
      (by
        rw [TasksNodup, allTaskPaths]
        simp only [allTasks, List.nil_append]
        exact h3.2.1)
      (by
        rw [FoldersNodup]
        simp only [allFolderPaths]
        exact hf2.1)]
    -- step c: drop the emptied node
    rw [removeFolder, removeFolderL, if_pos ⟨rfl, rfl⟩,
      removeFolderL_eq_self vp vs (hf2.2.2 (List.mem_cons_self _ _))]
/-- Scrubbing a list of folders that is exactly the subfolder list of a
tree's root empties that list, under distinct task and folder paths. -/
theorem scrubL_self (vs' : NFolderL) : ∀ vn vp,
    TasksNodup (.mk vn vp [] vs') →
    FoldersNodup (.mk vn vp [] vs') →
    scrubL vs' (.mk vn vp [] vs') = .mk vn vp [] .nil
  | vn, vp => by
    intro hT hF
    cases vs' with
    | nil => rfl
    | cons g gs => ?_
    rw [scrubL]
    rw [scrub_self g vn vp [] gs hT hF]
    refine scrubL_self gs vn vp ?_ ?_
    · rw [TasksNodup, allTaskPaths] at hT ⊢
      refine hT.sublist (List.Sublist.map _ ?_)
      simp only [allTasks, allTasksL, List.nil_append]
      exact List.sublist_append_right _ _
    · rw [FoldersNodup] at hF ⊢
      refine hF.sublist ?_
      simp only [allFolderPaths, allFolderPathsL]
      exact ((List.sublist_append_right _ _).cons₂ vp)
end

/-- Scrubbing the head child of a found folder leaves that folder with the
remaining children. -/
theorem scrub_parent (S v : NFolder) (q n : GoStr) (ts : List NTask) (vs : NFolderL)
    (hT : TasksNodup S) (hF : FoldersNodup S)
    (hfind : findFolderL q S.subs = some (.mk n q ts (.cons v vs))) :
    findFolderL q (scrub v S).subs = some (.mk n q ts vs) := by
  have hSq : S.path ≠ q := by
    intro heq
    have hmem : q ∈ allFolderPathsL S.subs := findFolderL_mem_paths q S.subs _ hfind
    rw [FoldersNodup, allFolderPaths_eq] at hF
    exact (List.nodup_cons.mp hF).1 (heq ▸ hmem)
  have hffull : findFolder q S = some (.mk n q ts (.cons v vs)) := by
    rw [findFolder_eq_findFolderL q S hSq]
    exact hfind
  have hsubP : (allFolderPaths (NFolder.mk n q ts (.cons v vs))).Sublist
      (allFolderPaths S) := findFolder_allFolderPaths_sublist q S _ hffull
  have hsubT : (allTasks (NFolder.mk n q ts (.cons v vs))).Sublist (allTasks S) :=
    findFolder_allTasks_sublist q S _ hffull
  have hTparent : TasksNodup (.mk n q ts (.cons v vs)) := by
    rw [TasksNodup, allTaskPaths]
    exact (hT : (allTaskPaths S).Nodup).sublist (hsubT.map _)
  have hFparent : FoldersNodup (.mk n q ts (.cons v vs)) := by
    rw [FoldersNodup]
    exact (hF : (allFolderPaths S).Nodup).sublist hsubP
  have hqv : q ∉ allFolderPaths v := by
    intro hmem
    have := hFparent
    rw [FoldersNodup] at this
    simp only [allFolderPaths, allFolderPathsL] at this
    exact (List.nodup_cons.mp this).1 (List.mem_append_left _ hmem)
  have hcomm := findFolder_scrub q v hqv S
  rw [hffull] at hcomm
  have hself := scrub_self v n q ts vs hTparent hFparent
  have hfinal : findFolder q (scrub v S) = some (.mk n q ts vs) := by
    rw [hcomm]
    simp only [Option.map]
    rw [hself]
  rw [← findFolder_eq_findFolderL q (scrub v S) (by rw [path_scrub]; exact hSq)]
  exact hfinal

mutual
/-- Scrubbing removes every task path of the scrubbed subtree. -/
theorem scrub_removes_taskPaths (v : NFolder) : ∀ S r, r ∈ allTaskPaths v →
    r ∉ allTaskPaths (scrub v S)
  | S, r => by
    intro hr
    cases v with
    | mk vn vp vts vss => ?_
    rw [scrub, allTaskPaths, allTasks_removeFolder, ← allTaskPaths]
    rw [allTaskPaths, allTasks] at hr
    simp only [List.map_append, List.mem_append] at hr
    rcases hr with hr | hr
    · intro hmem
      exact removeTasks_not_mem_paths vts S r hr
        ((allTasks_scrubL_sublist vss (removeTasks vts S)).map _ |>.mem hmem)
    · exact scrubL_removes_taskPaths vss (removeTasks vts S) r hr
/-- Iterated scrubbing removes every task path of the scrubbed
subtrees. -/
theorem scrubL_removes_taskPaths (vs : NFolderL) : ∀ S r, r ∈ allTaskPathsL vs →
    r ∉ allTaskPaths (scrubL vs S)
  | S, r => by
    intro hr
    cases vs with
    | nil => simp [allTaskPathsL, allTasksL] at hr
    | cons f fs => ?_
    rw [scrubL]
    rw [allTaskPathsL, allTasksL] at hr
    simp only [List.map_append, List.mem_append] at hr
    rcases hr with hr | hr
    · intro hmem
      exact scrub_removes_taskPaths f S r hr
        ((allTasks_scrubL_sublist fs (scrub f S)).map _ |>.mem hmem)
    · exact scrubL_removes_taskPaths fs (scrub f S) r hr
end

mutual
/-- Removing the unique empty folder at a path makes lookup of that path
fail (whole-tree version, for a root that does not carry the path). -/
theorem findFolder_removeFolder_self (p : GoStr) : ∀ f w,
    (allFolderPaths f).Nodup → f.path ≠ p → findFolder p f = some w →
    w.isEmptyFolder = true → findFolder p (removeFolder p f) = none
  | .mk n r ts ss, w => by
    intro hn hroot hw he
    simp only [NFolder.path] at hroot
    simp only [findFolder, hroot, if_neg, if_false] at hw
    rw [allFolderPaths] at hn
    rw [removeFolder]
    simp only [findFolder, hroot, if_neg, if_false]
    exact findFolderL_removeFolderL_self p ss w (List.nodup_cons.mp hn).2 hw he
/-- Removing the unique empty folder at a path makes lookup of that path
fail (list version). -/
theorem findFolderL_removeFolderL_self (p : GoStr) : ∀ L w,
    (allFolderPathsL L).Nodup → findFolderL p L = some w →
    w.isEmptyFolder = true → findFolderL p (removeFolderL p L) = none
  | .nil, w => by intro _ hw _; simp [findFolderL] at hw
  | .cons f fs, w => by
    intro hn hw he
    simp only [allFolderPathsL] at hn
    have hn1 := (List.nodup_append.mp hn).1
    have hn2 := (List.nodup_append.mp hn).2.1
    have hdisj := (List.nodup_append.mp hn).2.2
    simp only [findFolderL] at hw
    rcases hf : findFolder p f with _ | w'
    · rw [hf] at hw
      have hpf : p ∉ allFolderPaths f := (findFolder_eq_none_iff p f).mp hf
      have hfp_ne : ¬(f.path = p ∧ f.isEmptyFolder = true) := by
        rintro ⟨heq, _⟩
        exact hpf (heq ▸ path_mem_allFolderPaths f)
      rw [removeFolderL, if_neg hfp_ne]
      have hnone1 : findFolder p (removeFolder p f) = none := by
        rw [findFolder_eq_none_iff]
        intro hmem
        exact hpf ((allFolderPaths_removeFolder p f).mem hmem)
      simp only [findFolderL, hnone1]
      exact findFolderL_removeFolderL_self p fs w hn2 hw he
    · rw [hf] at hw
      cases hw
      by_cases hc : f.path = p
      · have hwf : w = f := by
          cases f with
          | mk fn fp fts fss =>
            simp only [NFolder.path] at hc
            subst hc
            have hself := findFolder_self (NFolder.mk fn fp fts fss)
            simp only [NFolder.path] at hself
            rw [hself] at hf
            exact (Option.some.inj hf).symm
        subst hwf
        rw [removeFolderL, if_pos ⟨hc, he⟩]
        have hnfs : p ∉ allFolderPathsL fs :=
          fun hmem => hdisj (hc ▸ path_mem_allFolderPaths w) hmem
        rw [findFolderL_eq_none_iff]
        intro hmem
        exact hnfs ((allFolderPathsL_removeFolderL p fs).mem hmem)
      · have hfp_ne : ¬(f.path = p ∧ f.isEmptyFolder = true) := fun h => hc h.1
        rw [removeFolderL, if_neg hfp_ne]
        have hnone1 : findFolder p (removeFolder p f) = none :=
          findFolder_removeFolder_self p f w hn1 hc hf he
        simp only [findFolderL, hnone1]
        have hnfs : p ∉ allFolderPathsL fs :=
          fun hmem => hdisj (findFolder_mem_paths p f w hf) hmem
        rw [findFolderL_eq_none_iff]
        intro hmem
        exact hnfs ((allFolderPathsL_removeFolderL p fs).mem hmem)
end

/-! ### Helper lemmas: the recursive deletion executes as specified -/

/-- ForEach of task deletions over a snapshot collection whose tasks are
present, distinct and absolutely addressed succeeds, removes exactly those
tasks, and its mutating calls are the task deletions in order. -/
theorem deleteAllTasksFold_spec (t : TaskService) (ts : List NTask) : ∀ S,
    (∀ a ∈ ts, (findTask a.path S).isSome = true) →
    (ts.map (fun nt => nt.path)).Nodup →
    (∀ a ∈ ts, a.path.head? = some '\\') →
    ∃ trc, deleteAllTasksFold t ts S = (.ok (), removeTasks ts S, trc)
      ∧ mutationCalls trc = ts.map (fun a => NCall.DeleteTask a.path) := by
  induction ts with
  | nil => exact fun S _ _ _ => ⟨[], rfl, rfl⟩
  | cons a rest ih =>
    intro S hpres hnod hval
    rcases hpth : a.path with _ | ⟨c, p'⟩
    · have := hval a (List.mem_cons_self _ _)
      rw [hpth] at this
      simp at this
    · have hc : c = '\\' := by
        have := hval a (List.mem_cons_self _ _)
        rw [hpth] at this
        simpa using this
      subst hc
      have hsome := hpres a (List.mem_cons_self _ _)
      have hdel : goDeleteTask S a.path = some (removeTask a.path S) := by
        rw [goDeleteTask, if_pos hsome]
      have hDT : DeleteTask t S a.path =
          (.ok (), removeTask a.path S, [.DeleteTask a.path]) := by
        rw [hpth] at hdel ⊢
        simp [DeleteTask, hdel]
      have hne : ∀ b ∈ rest, b.path ≠ a.path := by
        intro b hb heq
        exact (List.nodup_cons.mp hnod).1 (List.mem_map.mpr ⟨b, hb, heq⟩)
      obtain ⟨trc2, h2, hm2⟩ := ih (removeTask a.path S)
        (fun b hb => by
          rw [findTask_removeTask b.path a.path (hne b hb) S]
          exact hpres b (List.mem_cons_of_mem _ hb))
        (List.nodup_cons.mp hnod).2
        (fun b hb => hval b (List.mem_cons_of_mem _ hb))
      refine ⟨[.GetProperty a.path "Path", .DeleteTask a.path] ++ trc2, ?_, ?_⟩
      · show deleteAllTasksFold t (a :: rest) S = _
        simp only [deleteAllTasksFold, hDT, h2]
        rfl
      · simp [mutationCalls, List.filter_append, NCall.isMutation] at hm2 ⊢
        exact hm2

mutual
/-- The recursive deletion closure, applied to the snapshot of a folder
that the current state still holds at its path, succeeds, transforms the
state by scrub, and performs exactly the post-order deletions as its
mutating calls. -/
theorem deleteTasksRecursively_spec (t : TaskService) (v : NFolder) : ∀ S,
    findFolderL v.path S.subs = some v →
    TasksNodup S → FoldersNodup S → TasksValid S →
    ∃ trc, deleteTasksRecursively t v S = (.ok (), scrub v S, trc)
      ∧ mutationCalls trc = postOrderDeletes v
  | S => by
    intro hfind hT hF hV
    cases v with
    | mk n p ts ss => ?_
    simp only [NFolder.path] at hfind
    have hSp : S.path ≠ p := by
      intro heq
      have hmem : p ∈ allFolderPathsL S.subs := findFolderL_mem_paths p S.subs _ hfind
      rw [FoldersNodup, allFolderPaths_eq] at hF
      exact (List.nodup_cons.mp hF).1 (heq ▸ hmem)
    have hffull : findFolder p S = some (.mk n p ts ss) := by
      rw [findFolder_eq_findFolderL p S hSp]
      exact hfind
    have hsubT : (allTasks (NFolder.mk n p ts ss)).Sublist (allTasks S) :=
      findFolder_allTasks_sublist p S _ hffull
    have hTv : (allTaskPaths (NFolder.mk n p ts ss)).Nodup :=
      (hT : (allTaskPaths S).Nodup).sublist (hsubT.map _)
    have hTv' := hTv
    rw [allTaskPaths] at hTv'
    simp only [allTasks, List.map_append] at hTv'
    have htsn : (ts.map (fun nt => nt.path)).Nodup := (List.nodup_append.mp hTv').1
    have htsd := (List.nodup_append.mp hTv').2.2
    obtain ⟨trc1, hA, hAm⟩ := deleteAllTasksFold_spec t ts S
      (fun a ha => by
        rw [findTask_isSome_iff]
        exact List.mem_map_of_mem _
          (hsubT.mem (List.mem_append_left _ ha)))
      htsn
      (fun a ha => hV a (hsubT.mem (List.mem_append_left _ ha)))
    have hT1 : TasksNodup (removeTasks ts S) :=
      (hT : (allTaskPaths S).Nodup).sublist (allTaskPaths_removeTasks_sublist ts S)
    have hF1 : FoldersNodup (removeTasks ts S) := by
      rw [FoldersNodup, allFolderPaths_removeTasks]
      exact hF
    have hV1 : TasksValid (removeTasks ts S) := fun nt hmem =>
      hV nt ((allTasks_removeTasks_sublist ts S).mem hmem)
    have hfind1 : findFolderL p (removeTasks ts S).subs = some (.mk n p [] ss) := by
      have hcomm := findFolder_removeTasks ts p S
      rw [hffull] at hcomm
      simp only [Option.map] at hcomm
      rw [removeTasks_self ts n p ss htsn
        (fun a ha => fun hmem => htsd (List.mem_map_of_mem _ ha) hmem)] at hcomm
      rw [← findFolder_eq_findFolderL p (removeTasks ts S)
        (by rw [path_removeTasks]; exact hSp)]
      exact hcomm
    obtain ⟨trc2, hB, hBm, hBf⟩ := deleteTasksRecursivelyL_spec t ss
      (removeTasks ts S) n p [] hfind1 hT1 hF1 hV1
    have hgoDel : goDeleteFolder (scrubL ss (removeTasks ts S)) p =
        some (removeFolder p (scrubL ss (removeTasks ts S))) := by
      rw [goDeleteFolder, hBf]
      rfl
    refine ⟨[NCall.GetTasks p TASK_ENUM_HIDDEN] ++ trc1 ++
      [NCall.GetFolders p TASK_ENUM_HIDDEN] ++ trc2 ++
      [NCall.GetProperty p "Path"] ++ [NCall.DeleteFolder p], ?_, ?_⟩
    · simp only [deleteTasksRecursively, hA, hB, hgoDel]
      rw [scrub]
    · simp only [mutationCalls, List.filter_append] at hAm hBm ⊢
      rw [hAm, hBm]
      simp [NCall.isMutation, postOrderDeletes]
/-- ForEach of the recursive deletion closure over the subfolder snapshot
list of a held folder node succeeds, scrubs each subtree in order, leaves
the parent with no children, and performs exactly the post-order deletions
of the list. -/
theorem deleteTasksRecursivelyL_spec (t : TaskService) (vs : NFolderL) :
    ∀ S n p ts, findFolderL p S.subs = some (.mk n p ts vs) →
    TasksNodup S → FoldersNodup S → TasksValid S →
    ∃ trc, deleteTasksRecursivelyL t vs S = (.ok (), scrubL vs S, trc)
      ∧ mutationCalls trc = postOrderDeletesL vs
      ∧ findFolderL p (scrubL vs S).subs = some (.mk n p ts .nil)
  | S, n, p, ts => by
    intro hfind hT hF hV
    cases vs with
    | nil => exact ⟨[], rfl, rfl, hfind⟩
    | cons g gs => ?_
    have hfg : findFolderL g.path S.subs = some g :=
      findFolderL_child S p n ts g gs hF hfind
    obtain ⟨trc1, hM, hMm⟩ := deleteTasksRecursively_spec t g S hfg hT hF hV
    have hfind' : findFolderL p (scrub g S).subs = some (.mk n p ts gs) :=
      scrub_parent S g p n ts gs hT hF hfind
    have hT' : TasksNodup (scrub g S) :=
      (hT : (allTaskPaths S).Nodup).sublist ((allTasks_scrub_sublist g S).map _)
    have hF' : FoldersNodup (scrub g S) :=
      (hF : (allFolderPaths S).Nodup).sublist (allFolderPaths_scrub_sublist g S)
    have hV' : TasksValid (scrub g S) := fun nt hmem =>
      hV nt ((allTasks_scrub_sublist g S).mem hmem)
    obtain ⟨trc2, hL, hLm, hLf⟩ := deleteTasksRecursivelyL_spec t gs (scrub g S)
      n p ts hfind' hT' hF' hV'
    refine ⟨trc1 ++ trc2, ?_, ?_, ?_⟩
    · simp only [deleteTasksRecursivelyL, hM, hL]
      rw [scrubL]
    · simp only [mutationCalls, List.filter_append] at hMm hLm ⊢
      rw [hMm, hLm]
      rfl
    · rw [scrubL]
      exact hLf
end

/-- The subfolder list of a tree after folder removal. -/
theorem subs_removeFolder (q : GoStr) (S : NFolder) :
    (removeFolder q S).subs = removeFolderL q S.subs := by
  cases S; rfl

/-- C7: for a valid path naming a held folder (in a well-formed state:
distinct task and folder paths, absolute task paths), non-recursive
DeleteFolder on a folder with a task or a subfolder returns false with no
error, leaves the state untouched and performs no mutating call; recursive
DeleteFolder returns true with no error, its mutating calls are exactly the
deletions of the folder's tasks, then the post-order deletions of every
subfolder (tasks first, then the emptied folder, bottom-up), then the
deletion of the target folder itself, and afterwards neither the folder nor
any task of its subtree can be found. -/
theorem c7_delete_folder_semantics (t : TaskService) (st : NFolder) (path : GoStr)
    (rest : GoStr) (hpath : path = '\\' :: rest)
    (f : NFolder) (hfind : findFolderL path st.subs = some f)
    (HT : TasksNodup st) (HF : FoldersNodup st) (HV : TasksValid st) :
    ((f.tasks ≠ [] ∨ f.subs ≠ .nil) →
      (DeleteFolder t st path false).1 = .ok false
      ∧ (DeleteFolder t st path false).2.1 = st
      ∧ mutationCalls (DeleteFolder t st path false).2.2 = [])
  ∧ (∃ trc, DeleteFolder t st path true = (.ok true, scrub f st, trc)
      ∧ mutationCalls trc =
          f.tasks.map (fun a => NCall.DeleteTask a.path) ++ postOrderDeletesL f.subs
            ++ [NCall.DeleteFolder path]
      ∧ findFolderL path (scrub f st).subs = none
      ∧ (∀ nt ∈ allTasks f, findTask nt.path (scrub f st) = none)) := by
  subst hpath
  have hSp : st.path ≠ '\\' :: rest := by
    intro heq
    have hmem : ('\\' :: rest) ∈ allFolderPathsL st.subs :=
      findFolderL_mem_paths _ st.subs _ hfind
    rw [FoldersNodup, allFolderPaths_eq] at HF
    exact (List.nodup_cons.mp HF).1 (heq ▸ hmem)
  have hGF : goGetFolder st ('\\' :: rest) = some f := by
    rw [goGetFolder, if_neg (by simp), findFolder_eq_findFolderL _ st hSp]
    exact hfind
  cases f with
  | mk n fp fts fss => ?_
  have hfp : fp = '\\' :: rest := by
    have := findFolderL_path _ st.subs _ hfind
    simpa [NFolder.path] using this
  subst hfp
  constructor
  · -- non-recursive mode on a non-empty folder
    intro hne
    rcases hts : fts with _ | ⟨a, fts'⟩
    · subst hts
      have hss : ∃ g gs, fss = NFolderL.cons g gs := by
        rcases hne with h | h
        · simp [NFolder.tasks] at h
        · cases fss with
          | nil => simp [NFolder.subs] at h
          | cons g gs => exact ⟨g, gs, rfl⟩
      obtain ⟨g, gs, rfl⟩ := hss
      refine ⟨?_, ?_, ?_⟩ <;>
        simp [DeleteFolder, hGF, NFolder.tasks, NFolder.subs, NFolder.path,
          NFolderL.length, mutationCalls, NCall.isMutation]
    · subst hts
      refine ⟨?_, ?_, ?_⟩ <;>
        simp [DeleteFolder, hGF, NFolder.tasks, NFolder.subs, NFolder.path,
          mutationCalls, NCall.isMutation]
  · -- recursive mode
    have hffull : findFolder ('\\' :: rest) st = some (.mk n ('\\' :: rest) fts fss) := by
      rw [findFolder_eq_findFolderL _ st hSp]
      exact hfind
    have hsubT : (allTasks (NFolder.mk n ('\\' :: rest) fts fss)).Sublist (allTasks st) :=
      findFolder_allTasks_sublist _ st _ hffull
    have hTv : (allTaskPaths (NFolder.mk n ('\\' :: rest) fts fss)).Nodup :=
      (HT : (allTaskPaths st).Nodup).sublist (hsubT.map _)
    have hTv' := hTv
    rw [allTaskPaths] at hTv'
    simp only [allTasks, List.map_append] at hTv'
    have htsn : (fts.map (fun nt => nt.path)).Nodup := (List.nodup_append.mp hTv').1
    have htsd := (List.nodup_append.mp hTv').2.2
    obtain ⟨trc1, hA, hAm⟩ := deleteAllTasksFold_spec t fts st
      (fun a ha => by
        rw [findTask_isSome_iff]
        exact List.mem_map_of_mem _ (hsubT.mem (List.mem_append_left _ ha)))
      htsn
      (fun a ha => HV a (hsubT.mem (List.mem_append_left _ ha)))
    have hT1 : TasksNodup (removeTasks fts st) :=
      (HT : (allTaskPaths st).Nodup).sublist (allTaskPaths_removeTasks_sublist fts st)
    have hF1 : FoldersNodup (removeTasks fts st) := by
      rw [FoldersNodup, allFolderPaths_removeTasks]
      exact HF
    have hV1 : TasksValid (removeTasks fts st) := fun nt hmem =>
      HV nt ((allTasks_removeTasks_sublist fts st).mem hmem)
    have hfind1 : findFolderL ('\\' :: rest) (removeTasks fts st).subs =
        some (.mk n ('\\' :: rest) [] fss) := by
      have hcomm := findFolder_removeTasks fts ('\\' :: rest) st
      rw [hffull] at hcomm
      simp only [Option.map] at hcomm
      rw [removeTasks_self fts n ('\\' :: rest) fss htsn
        (fun a ha => fun hmem => htsd (List.mem_map_of_mem _ ha) hmem)] at hcomm
      rw [← findFolder_eq_findFolderL _ (removeTasks fts st)
        (by rw [path_removeTasks]; exact hSp)]
      exact hcomm
    obtain ⟨trc2, hB, hBm, hBf⟩ := deleteTasksRecursivelyL_spec t fss
      (removeTasks fts st) n ('\\' :: rest) [] hfind1 hT1 hF1 hV1
    have hgoDel : goDeleteFolder (scrubL fss (removeTasks fts st)) ('\\' :: rest) =
        some (removeFolder ('\\' :: rest) (scrubL fss (removeTasks fts st))) := by
      rw [goDeleteFolder, hBf]
      rfl
    have hF2 : FoldersNodup (scrubL fss (removeTasks fts st)) := by
      refine (hF1 : (allFolderPaths _).Nodup).sublist ?_
      exact allFolderPaths_scrubL_sublist fss (removeTasks fts st)
    have hU : findFolderL ('\\' :: rest)
        (scrub (NFolder.mk n ('\\' :: rest) fts fss) st).subs = none := by
      rw [scrub, subs_removeFolder]
      refine findFolderL_removeFolderL_self ('\\' :: rest) _ (.mk n ('\\' :: rest) [] .nil)
        ?_ hBf rfl
      rw [FoldersNodup, allFolderPaths_eq] at hF2
      exact (List.nodup_cons.mp hF2).2
    refine ⟨[NCall.GetFolder ('\\' :: rest),
      NCall.GetTasks ('\\' :: rest) TASK_ENUM_HIDDEN,
      NCall.GetFolders ('\\' :: rest) TASK_ENUM_HIDDEN] ++ trc1 ++ trc2 ++
      [NCall.DeleteFolder ('\\' :: rest)], ?_, ?_, hU, ?_⟩
    · simp only [DeleteFolder, hGF, NFolder.tasks, NFolder.subs, NFolder.path,
        hA, hB, hgoDel]
      rw [scrub]
      simp
    · simp only [mutationCalls, List.filter_append] at hAm hBm ⊢
      rw [hAm, hBm]
      simp [NCall.isMutation, NFolder.tasks, NFolder.subs]
    · intro nt hmem
      have hr : nt.path ∈ allTaskPaths (NFolder.mk n ('\\' :: rest) fts fss) :=
        List.mem_map_of_mem _ hmem
      have hnot := scrub_removes_taskPaths (NFolder.mk n ('\\' :: rest) fts fss) st
        nt.path hr
      rcases hft : findTask nt.path (scrub (NFolder.mk n ('\\' :: rest) fts fss) st)
        with _ | tk
      · rfl
      · exact absurd ((findTask_isSome_iff _ _).mp (by simp [hft])) hnot

/-- C7 witness: deleting the sample folder A non-recursively fails softly
with no mutating call; deleting it recursively deletes its task, then its
subfolder B's task, then B, then A. -/
theorem c7_witness :
    (DeleteFolder sampleService sampleState (strOf "\\A") false).1 = .ok false
  ∧ mutationCalls (DeleteFolder sampleService sampleState (strOf "\\A") false).2.2 = []
  ∧ (DeleteFolder sampleService sampleState (strOf "\\A") true).1 = .ok true
  ∧ mutationCalls (DeleteFolder sampleService sampleState (strOf "\\A") true).2.2 =
      [.DeleteTask (strOf "\\A\\t1"), .DeleteTask (strOf "\\A\\B\\t2"),
       .DeleteFolder (strOf "\\A\\B"), .DeleteFolder (strOf "\\A")] := by
  have h := c7_delete_folder_semantics sampleService sampleState (strOf "\\A")
    (strOf "A") rfl
    (.mk (strOf "A") (strOf "\\A") [⟨strOf "\\A\\t1", oldDef⟩]
      (.cons (.mk (strOf "B") (strOf "\\A\\B") [⟨strOf "\\A\\B\\t2", oldDef⟩] .nil) .nil))
    rfl (by unfold TasksNodup; decide) (by unfold FoldersNodup; decide)
    (by unfold TasksValid; decide)
  obtain ⟨h1, h2⟩ := h
  obtain ⟨hr1, hr2, hr3⟩ := h1 (Or.inl (by decide))
  obtain ⟨trc, he, hm, _, _⟩ := h2
  refine ⟨hr1, hr3, ?_, ?_⟩
  · rw [he]
  · rw [he]
    rw [hm]
    rfl

/-- C5 (amended): for every valid path whose folder resolves, GetTaskFolder
returns the mirror of the resolved native subtree — its direct tasks parsed
in place and its subfolder tree mirrored node for node by the depth-first
recursion — except that the returned top node carries Path equal to the
root separator (and an empty Name) regardless of the argument; in
particular, on the mocked hierarchy with folders A and A B holding one task
each, GetTaskFolder at the root returns a root with no direct task, one
child A with one task, and one grandchild B with one task. -/
theorem c5_amended_tree_building (t : TaskService) (st : NFolder) (p : GoStr)
    (hp : p.head? = some '\\') (top : NFolder)
    (htop : (if p = rootPath then some st else goGetFolder st p) = some top) :
    (GetTaskFolder t st p).1 =
      .ok (.mk [] rootPath (top.tasks.map parseRegisteredTask) (mirrorFolderL top.subs))
  ∧ (GetTaskFolder sampleService scenarioState rootPath).1 =
      .ok (.mk [] rootPath []
        (.cons (.mk (strOf "A") (strOf "\\A") [⟨strOf "\\A\\taskA", oldDef⟩]
          (.cons (.mk (strOf "B") (strOf "\\A\\B") [⟨strOf "\\A\\B\\taskB", oldDef⟩] .nil)
            .nil)) .nil)) := by
  constructor
  · cases p with
    | nil => simp at hp
    | cons a rest =>
      simp only [List.head?_cons, Option.some.injEq] at hp
      subst hp
      by_cases hroot : ('\\' :: rest) = rootPath
      · rw [if_pos hroot] at htop
        obtain rfl : st = top := Option.some.inj htop
        simp [GetTaskFolder, hroot, enumTaskFoldersL_fst]
      · rw [if_neg hroot] at htop
        simp [GetTaskFolder, hroot, htop, enumTaskFoldersL_fst]
  · rfl

/-- C5 witness: GetTaskFolder at path A of the sample state returns the
mirrored subtree with the hardcoded root path. -/
theorem c5_witness :
    (GetTaskFolder sampleService sampleState (strOf "\\A")).1 = .ok c5CounterTF :=
  (c5_amended_tree_building sampleService sampleState (strOf "\\A") rfl
    (.mk (strOf "A") (strOf "\\A") [⟨strOf "\\A\\t1", oldDef⟩]
      (.cons (.mk (strOf "B") (strOf "\\A\\B") [⟨strOf "\\A\\B\\t2", oldDef⟩] .nil) .nil))
    rfl).1

/-- C5 counterexample: GetTaskFolder at path A succeeds, but the returned
root node's Path attribute is the root separator, not the requested path,
refuting the claim that it equals the argument. -/
theorem c5_counterexample :
    (GetTaskFolder sampleService sampleState (strOf "\\A")).1 = .ok c5CounterTF
  ∧ c5CounterTF.Path = rootPath
  ∧ c5CounterTF.Path ≠ strOf "\\A" :=
  ⟨rfl, rfl, by decide⟩

/-- C4: at a valid path where a task already exists (and whose parent
folder exists), CreateTaskEx with overwrite false returns the pre-existing
parsed task with a false created flag and no error, its full trace being
the folder probe and two task lookups — no delete and no register call;
with overwrite true it succeeds with a true created flag and its mutating
calls are exactly one DeleteTask of that path followed by one
RegisterTaskDefinition at that path. -/
theorem c4_create_existing_task (t : TaskService) (st : NFolder) (path : GoStr)
    (d : Definition) (u pw : GoStr) (lt : TaskLogonType)
    (rest : GoStr) (hpath : path = '\\' :: rest)
    (hv : validateDefinition d = none)
    (nt : NTask) (htask : findTask path st = some nt)
    (hfold : (goGetFolder st (path.take ((lastIndexOf '\\' path).getD 0))).isSome = true) :
    CreateTaskEx t st path d u pw lt false =
      (.ok (parseRegisteredTask nt, false), st,
        [.GetFolder (path.take ((lastIndexOf '\\' path).getD 0)), .GetTask path,
         .GetTask path])
  ∧ mutationCalls (CreateTaskEx t st path d u pw lt true).2.2 =
      [.DeleteTask path, .RegisterTaskDefinition path]
  ∧ (CreateTaskEx t st path d u pw lt true).1 =
      .ok (parseRegisteredTask ⟨path, defaultUserID t d⟩, true) := by
  subst hpath
  have hgt : goGetTask st ('\\' :: rest) = some nt := htask
  have hdel : goDeleteTask st ('\\' :: rest) = some (removeTask ('\\' :: rest) st) := by
    simp [goDeleteTask, htask]
  have hli : (lastIndexOf '\\' ('\\' :: rest)).isSome = true :=
    lastIndexOf_isSome_of_head _ _ rfl
  have hfold2 :
      (goGetFolder (removeTask ('\\' :: rest) st) (parentDir ('\\' :: rest))).isSome
        = true := by
    rw [goGetFolder_removeTask_isSome, goGetFolder_parentDir st _ hli]
    exact hfold
  rcases hpar : goGetFolder (removeTask ('\\' :: rest) st) (parentDir ('\\' :: rest))
    with _ | parent
  · rw [hpar] at hfold2
    simp at hfold2
  · have hreg : goRegisterTask (removeTask ('\\' :: rest) st) ('\\' :: rest)
        (defaultUserID t d) =
        some (⟨'\\' :: rest, defaultUserID t d⟩,
          insertTask parent.path ⟨'\\' :: rest, defaultUserID t d⟩
            (removeTask ('\\' :: rest) (removeTask ('\\' :: rest) st))) := by
      simp [goRegisterTask, hpar]
    have hmod : modifyTask t (removeTask ('\\' :: rest) st) ('\\' :: rest) d u pw lt
        .TASK_CREATE =
        (.ok ⟨'\\' :: rest, defaultUserID t d⟩,
         insertTask parent.path ⟨'\\' :: rest, defaultUserID t d⟩
           (removeTask ('\\' :: rest) (removeTask ('\\' :: rest) st)),
         [.NewTask, .RegisterTaskDefinition ('\\' :: rest)]) := by
      simp [modifyTask, hreg]
    refine ⟨?_, ?_, ?_⟩
    · simp [CreateTaskEx, hv, hfold, hgt, GetRegisteredTask]
    · simp [CreateTaskEx, hv, hfold, hgt, hdel, hmod, mutationCalls, NCall.isMutation]
    · simp [CreateTaskEx, hv, hfold, hgt, hdel, hmod]

/-- C4 witness: overwriting behavior at the concrete sample task. -/
theorem c4_witness :
    (CreateTaskEx sampleService sampleState (strOf "\\A\\t1") sampleDef [] []
      .TASK_LOGON_PASSWORD false).1 =
      .ok (⟨strOf "\\A\\t1", oldDef⟩, false)
  ∧ mutationCalls (CreateTaskEx sampleService sampleState (strOf "\\A\\t1") sampleDef [] []
      .TASK_LOGON_PASSWORD true).2.2 =
      [.DeleteTask (strOf "\\A\\t1"), .RegisterTaskDefinition (strOf "\\A\\t1")] := by
  have h := c4_create_existing_task sampleService sampleState (strOf "\\A\\t1")
    sampleDef [] [] .TASK_LOGON_PASSWORD (strOf "A\\t1") rfl rfl
    ⟨strOf "\\A\\t1", oldDef⟩ rfl rfl
  exact ⟨by rw [h.1]; rfl, h.2.1⟩

/-- C9: NewTaskDefinition is a pure value constructor (a plain function of
the connection value and the sampled clock, performing no bridge call) and
its result carries the documented defaults: interactive-token logon,
limited-user run level, author connectedDomain backslash connectedUser, a
10-minute idle duration, a 1-hour idle wait timeout, a 72-hour execution
time limit, and priority 7. -/
theorem c9_new_task_definition_defaults (t : TaskService) (now : Int) :
    (NewTaskDefinition t now).Principal.LogonType = .TASK_LOGON_INTERACTIVE_TOKEN
  ∧ (NewTaskDefinition t now).Principal.RunLevel = .TASK_RUNLEVEL_LUA
  ∧ (NewTaskDefinition t now).RegistrationInfo.Author =
      t.connectedDomain ++ '\\' :: t.connectedUser
  ∧ (NewTaskDefinition t now).Settings.IdleSettings.IdleDuration = NewHMS 0 10 0
  ∧ (NewTaskDefinition t now).Settings.IdleSettings.WaitTimeout = NewHMS 1 0 0
  ∧ (NewTaskDefinition t now).Settings.TimeLimit = NewHMS 72 0 0
  ∧ (NewTaskDefinition t now).Settings.Priority = 7 :=
  ⟨rfl, rfl, rfl, rfl, rfl, rfl, rfl⟩

/-- C10: Disconnect always clears both flags; a second Disconnect right
after a first is a no-op (same state, no release or teardown event); and on
a never-connected, never-initialized connection Disconnect releases nothing
and leaves the value unchanged. -/
theorem c10_disconnect_idempotent (ts : TaskService) :
    (Disconnect ts).1.isInitialized = false
  ∧ (Disconnect ts).1.isConnected = false
  ∧ Disconnect (Disconnect ts).1 = ((Disconnect ts).1, [])
  ∧ (ts.isConnected = false → ts.isInitialized = false → Disconnect ts = (ts, [])) := by
  obtain ⟨i, c, dm, cn, us⟩ := ts
  refine ⟨rfl, rfl, by simp [Disconnect], ?_⟩
  intro hc hi
  simp only at hc hi
  subst hc; subst hi
  simp [Disconnect]

/-- C10 witness: Disconnect on the zero-valued connection is a no-op with
no events. -/
theorem c10_witness : Disconnect {} = ({}, []) :=
  (c10_disconnect_idempotent {}).2.2.2 rfl rfl

/-- C3: whenever the extraction of a numeric code succeeds, both error
translators map code 50 to ErrTargetUnsupported, codes 53 and 0x80070032 to
ErrConnectionFailure and any other code to syscall.Errno of exactly that
code, while the running-task path maps 0x8004130B to
ErrRunningTaskCompleted and any other code to syscall.Errno of that code. -/
theorem c3_error_code_mapping (e : GoError) (code : Nat) :
    (getOLEErrorCode e = (code, none) →
      (code = 50 → getTaskSchedulerError e = ErrTargetUnsupported)
    ∧ ((code = 53 ∨ code = 0x80070032) → getTaskSchedulerError e = ErrConnectionFailure)
    ∧ (code ≠ 50 → code ≠ 53 → code ≠ 0x80070032 → getTaskSchedulerError e = .errno code)
    ∧ (code = 0x8004130B → getRunningTaskError e = ErrRunningTaskCompleted)
    ∧ (code ≠ 0x8004130B → getRunningTaskError e = .errno code))
  ∧ (part000.getOLEErrorCode e = (code, none) →
      (code = 50 → part000.getTaskSchedulerError e = ErrTargetUnsupported)
    ∧ ((code = 53 ∨ code = 0x80070032) →
        part000.getTaskSchedulerError e = ErrConnectionFailure)
    ∧ (code ≠ 50 → code ≠ 53 → code ≠ 0x80070032 →
        part000.getTaskSchedulerError e = .errno code)
    ∧ (code = 0x8004130B → part000.getRunningTaskError e = ErrRunningTaskCompleted)
    ∧ (code ≠ 0x8004130B → part000.getRunningTaskError e = .errno code)) := by
  constructor
  · intro h
    simp only [getTaskSchedulerError, getRunningTaskError, h]
    refine ⟨?_, ?_, ?_, ?_, ?_⟩
    · intro h50; simp [h50]
    · rintro (h53 | h32)
      · subst h53; norm_num
      · subst h32; norm_num
    · intro h50 h53 h32; simp [h50, h53, h32]
    · intro hb; simp [hb]
    · intro hb; simp [hb]
  · intro h
    simp only [part000.getTaskSchedulerError, part000.getRunningTaskError, h]
    refine ⟨?_, ?_, ?_, ?_, ?_⟩
    · intro h50; simp [h50]
    · rintro (h53 | h32)
      · subst h53; norm_num
      · subst h32; norm_num
    · intro h50 h53 h32; simp [h50, h53, h32]
    · intro hb; simp [hb]
    · intro hb; simp [hb]

/-- C3 witness: concrete codes exercised through both translators. -/
theorem c3_witness :
    getTaskSchedulerError (.oleError 0 (.excepInfo 50)) = ErrTargetUnsupported
  ∧ getTaskSchedulerError (.oleError 0 (.excepInfo 53)) = ErrConnectionFailure
  ∧ getTaskSchedulerError (.oleError 0 (.excepInfo 1234)) = .errno 1234
  ∧ getRunningTaskError (.oleError 0 (.excepInfo 0x8004130B)) = ErrRunningTaskCompleted
  ∧ part000.getTaskSchedulerError (.oleError 50 .nil) = ErrTargetUnsupported
  ∧ part000.getRunningTaskError (.oleError 7 .nil) = .errno 7 :=
  ⟨((c3_error_code_mapping (.oleError 0 (.excepInfo 50)) 50).1 (by decide)).1 rfl,
   ((c3_error_code_mapping (.oleError 0 (.excepInfo 53)) 53).1 (by decide)).2.1 (Or.inl rfl),
   ((c3_error_code_mapping (.oleError 0 (.excepInfo 1234)) 1234).1
      (by decide)).2.2.1 (by decide) (by decide) (by decide),
   ((c3_error_code_mapping (.oleError 0 (.excepInfo 0x8004130B)) 0x8004130B).1
      (by decide)).2.2.2.1 rfl,
   ((c3_error_code_mapping (.oleError 50 .nil) 50).2 (by decide)).1 rfl,
   ((c3_error_code_mapping (.oleError 7 .nil) 7).2 (by decide)).2.2.2.2 (by decide)⟩

/-- C6 counterexample: on an OleError with nonzero direct code 5 whose
sub-error is an EXCEPINFO with SCODE 9, both extractors succeed but return
different codes (errors.go takes the sub-error SCODE, the variant takes the
direct code), so the two translators return different typed errors. -/
theorem c6_counterexample :
    getOLEErrorCode (.oleError 5 (.excepInfo 9)) = (9, none)
  ∧ part000.getOLEErrorCode (.oleError 5 (.excepInfo 9)) = (5, none)
  ∧ getTaskSchedulerError (.oleError 5 (.excepInfo 9)) = .errno 9
  ∧ part000.getTaskSchedulerError (.oleError 5 (.excepInfo 9)) = .errno 5
  ∧ getTaskSchedulerError (.oleError 5 (.excepInfo 9)) ≠
      part000.getTaskSchedulerError (.oleError 5 (.excepInfo 9)) := by
  refine ⟨by decide, by decide, by decide, by decide, by decide⟩

/-- C6 (amended): restricted to error values that are not OLE errors or
whose direct OLE code is zero, the two getOLEErrorCode implementations
succeed on exactly the same inputs with the same numeric code, and whenever
extraction succeeds there the two getTaskSchedulerError and
getRunningTaskError versions agree. -/
theorem c6_amended_agreement (e : GoError)
    (h : ∀ code sub, e = .oleError code sub → code = 0) :
    (∀ c, getOLEErrorCode e = (c, none) ↔ part000.getOLEErrorCode e = (c, none))
  ∧ (∀ c, getOLEErrorCode e = (c, none) →
      getTaskSchedulerError e = part000.getTaskSchedulerError e
      ∧ getRunningTaskError e = part000.getRunningTaskError e) := by
  have hmm : ∀ n : Nat, n % 2 ^ 32 % 2 ^ 32 = n % 2 ^ 32 := fun n =>
    Nat.mod_mod_of_dvd n dvd_rfl
  cases e with
  | oleError code sub =>
    have hc : code = 0 := h code sub rfl
    subst hc
    cases sub with
    | excepInfo s =>
      constructor
      · intro c
        simp [getOLEErrorCode, part000.getOLEErrorCode, OleSub.scodeVal, hmm]
      · intro c hc
        simp [getTaskSchedulerError, part000.getTaskSchedulerError,
              getRunningTaskError, part000.getRunningTaskError,
              getOLEErrorCode, part000.getOLEErrorCode, OleSub.scodeVal, hmm]
    | nil =>
      constructor
      · intro c; simp [getOLEErrorCode, part000.getOLEErrorCode]
      · intro c hc; simp [getOLEErrorCode] at hc
    | other =>
      constructor
      · intro c; simp [getOLEErrorCode, part000.getOLEErrorCode]
      · intro c hc; simp [getOLEErrorCode] at hc
  | errMsg m =>
    refine ⟨fun c => by simp [getOLEErrorCode, part000.getOLEErrorCode],
            fun c hc => by simp [getOLEErrorCode] at hc⟩
  | errno n =>
    refine ⟨fun c => by simp [getOLEErrorCode, part000.getOLEErrorCode],
            fun c hc => by simp [getOLEErrorCode] at hc⟩
  | wrap m i =>
    refine ⟨fun c => by simp [getOLEErrorCode, part000.getOLEErrorCode],
            fun c hc => by simp [getOLEErrorCode] at hc⟩
  | wrap2 m a b =>
    refine ⟨fun c => by simp [getOLEErrorCode, part000.getOLEErrorCode],
            fun c hc => by simp [getOLEErrorCode] at hc⟩

/-- C6 witness: on an OleError with direct code zero and an EXCEPINFO
sub-error the two translators agree. -/
theorem c6_witness :
    getTaskSchedulerError (.oleError 0 (.excepInfo 7)) =
      part000.getTaskSchedulerError (.oleError 0 (.excepInfo 7)) :=
  ((c6_amended_agreement (.oleError 0 (.excepInfo 7))
      (fun _ _ heq => by injection heq with h1 _; exact h1.symm)).2 7 (by decide)).1

/-- C1 (amended): for every non-empty path that does not start with the
root separator, each of the six path-taking operations returns
ErrInvalidPath, leaves the mock service state unchanged and issues no
bridge call.  (On the empty string the operations panic instead of
returning ErrInvalidPath; see the counterexample.) -/
theorem c1_amended_invalid_path (t : TaskService) (st : NFolder) (p : GoStr) (c : Char)
    (hp : p.head? = some c) (hc : c ≠ '\\') (d : Definition) (u pw : GoStr)
    (lt : TaskLogonType) (ow : Bool) :
    GetRegisteredTask t st p = (.err ErrInvalidPath, [])
  ∧ GetTaskFolder t st p = (.err ErrInvalidPath, [])
  ∧ CreateTaskEx t st p d u pw lt ow = (.err ErrInvalidPath, st, [])
  ∧ UpdateTaskEx t st p d u pw lt = (.err ErrInvalidPath, st, [])
  ∧ DeleteFolder t st p ow = (.err ErrInvalidPath, st, [])
  ∧ DeleteTask t st p = (.err ErrInvalidPath, st, []) := by
  cases p with
  | nil => simp at hp
  | cons a rest =>
    simp only [List.head?_cons, Option.some.injEq] at hp
    subst hp
    exact ⟨by simp [GetRegisteredTask, hc], by simp [GetTaskFolder, hc],
           by simp [CreateTaskEx, hc], by simp [UpdateTaskEx, hc],
           by simp [DeleteFolder, hc], by simp [DeleteTask, hc]⟩

/-- C1 witness: a concrete relative path is rejected by all six operations
with no bridge call. -/
theorem c1_witness :
    GetRegisteredTask sampleService sampleState (strOf "A\\t") =
      (.err ErrInvalidPath, [])
  ∧ DeleteFolder sampleService sampleState (strOf "A\\t") true =
      (.err ErrInvalidPath, sampleState, []) := by
  have h := c1_amended_invalid_path sampleService sampleState (strOf "A\\t") 'A'
    (by decide) (by decide) sampleDef [] [] .TASK_LOGON_NONE true
  exact ⟨h.1, h.2.2.2.2.1⟩

/-- C1 counterexample: on the empty string (which does not begin with the
root separator) every path-taking operation panics on the path[0] index
instead of returning ErrInvalidPath, refuting the claim for that input.
No bridge call is performed either way. -/
theorem c1_counterexample_empty_path :
    (GetRegisteredTask sampleService sampleState []).1 = .panics
  ∧ (GetTaskFolder sampleService sampleState []).1 = .panics
  ∧ (CreateTaskEx sampleService sampleState [] sampleDef [] []
      .TASK_LOGON_PASSWORD false).1 = .panics
  ∧ (UpdateTaskEx sampleService sampleState [] sampleDef [] []
      .TASK_LOGON_PASSWORD).1 = .panics
  ∧ (DeleteFolder sampleService sampleState [] false).1 = .panics
  ∧ (DeleteTask sampleService sampleState []).1 = .panics
  ∧ (DeleteTask sampleService sampleState []).1 ≠ .err ErrInvalidPath :=
  ⟨rfl, rfl, rfl, rfl, rfl, rfl, by decide⟩

/-- C2: for a definition that fails validation (no actions, or both UserID
and GroupID set), CreateTaskEx and UpdateTaskEx perform no bridge call and
leave the service state unchanged, and when the path is otherwise valid
they return exactly the corresponding validation error. -/
theorem c2_validation_before_native (t : TaskService) (st : NFolder) (p : GoStr)
    (d : Definition) (u pw : GoStr) (lt : TaskLogonType) (ow : Bool)
    (h : d.Actions = [] ∨ (d.Principal.UserID ≠ [] ∧ d.Principal.GroupID ≠ [])) :
    (CreateTaskEx t st p d u pw lt ow).2.1 = st
  ∧ (CreateTaskEx t st p d u pw lt ow).2.2 = []
  ∧ (UpdateTaskEx t st p d u pw lt).2.1 = st
  ∧ (UpdateTaskEx t st p d u pw lt).2.2 = []
  ∧ (p.head? = some '\\' →
      (d.Actions = [] →
        (CreateTaskEx t st p d u pw lt ow).1 = .err ErrNoActions
        ∧ (UpdateTaskEx t st p d u pw lt).1 = .err ErrNoActions)
      ∧ (d.Actions ≠ [] →
        (CreateTaskEx t st p d u pw lt ow).1 = .err ErrInvalidPrincipal
        ∧ (UpdateTaskEx t st p d u pw lt).1 = .err ErrInvalidPrincipal)) := by
  have hv : ∃ e, validateDefinition d = some e
      ∧ (d.Actions = [] → e = ErrNoActions)
      ∧ (d.Actions ≠ [] → e = ErrInvalidPrincipal) := by
    by_cases ha : d.Actions = []
    · exact ⟨ErrNoActions, by simp [validateDefinition, ha], fun _ => rfl,
        fun hne => absurd ha hne⟩
    · rcases h with h | h
      · exact absurd h ha
      · exact ⟨ErrInvalidPrincipal, by simp [validateDefinition, ha, h.1, h.2],
          fun heq => absurd heq ha, fun _ => rfl⟩
  obtain ⟨e, he, he1, he2⟩ := hv
  cases p with
  | nil =>
    exact ⟨rfl, rfl, rfl, rfl, fun hh => by simp at hh⟩
  | cons a rest =>
    by_cases hA : a = '\\'
    · subst hA
      refine ⟨by simp [CreateTaskEx, he], by simp [CreateTaskEx, he],
              by simp [UpdateTaskEx, he], by simp [UpdateTaskEx, he], ?_⟩
      intro _
      constructor
      · intro ha
        have : e = ErrNoActions := he1 ha
        subst this
        exact ⟨by simp [CreateTaskEx, he], by simp [UpdateTaskEx, he]⟩
      · intro ha
        have : e = ErrInvalidPrincipal := he2 ha
        subst this
        exact ⟨by simp [CreateTaskEx, he], by simp [UpdateTaskEx, he]⟩
    · refine ⟨by simp [CreateTaskEx, hA], by simp [CreateTaskEx, hA],
              by simp [UpdateTaskEx, hA], by simp [UpdateTaskEx, hA], ?_⟩
      intro hh
      simp only [List.head?_cons, Option.some.injEq] at hh
      exact absurd hh hA

/-- C2 witness: a concrete action-less definition is rejected with
ErrNoActions before any bridge call. -/
theorem c2_witness :
    (CreateTaskEx sampleService sampleState (strOf "\\x") {} [] []
      .TASK_LOGON_NONE true).1 = .err ErrNoActions
  ∧ (CreateTaskEx sampleService sampleState (strOf "\\x") {} [] []
      .TASK_LOGON_NONE true).2.2 = [] := by
  have h := c2_validation_before_native sampleService sampleState (strOf "\\x")
    {} [] [] .TASK_LOGON_NONE true (Or.inl rfl)
  exact ⟨((h.2.2.2.2 (by decide)).1 rfl).1, h.2.1⟩

/-- C8: when neither UserID nor GroupID is set on the principal, modifyTask
injects the connection identity (connectedDomain, backslash, connectedUser)
as the UserID of the definition it registers — any successfully registered
native task carries exactly the input definition with that one field set —
and such a definition (with at least one action) passes validation. -/
theorem c8_default_identity (t : TaskService) (st : NFolder) (p : GoStr)
    (d : Definition) (u pw : GoStr) (lt : TaskLogonType) (fl : TaskCreationFlags)
    (hu : d.Principal.UserID = []) (hg : d.Principal.GroupID = []) :
    (∀ nt st' trc, modifyTask t st p d u pw lt fl = (.ok nt, st', trc) →
      nt.defn = { d with Principal :=
        { d.Principal with UserID := t.connectedDomain ++ '\\' :: t.connectedUser } })
  ∧ (d.Actions ≠ [] → validateDefinition d = none) := by
  constructor
  · intro nt st' trc hmt
    unfold modifyTask at hmt
    rcases hreg : goRegisterTask st p (defaultUserID t d) with _ | ⟨nt', st''⟩
    · rw [hreg] at hmt
      simp at hmt
    · rw [hreg] at hmt
      simp only [Prod.mk.injEq, GoRes.ok.injEq] at hmt
      obtain ⟨hok, _, _⟩ := hmt
      subst hok
      unfold goRegisterTask at hreg
      split at hreg
      · rw [Option.some.injEq, Prod.mk.injEq] at hreg
        obtain ⟨hnt, _⟩ := hreg
        rw [← hnt]
        show defaultUserID t d = _
        unfold defaultUserID
        rw [if_pos ⟨hu, hg⟩]
      · simp at hreg
  · intro ha
    simp [validateDefinition, ha, hu]

/-- C8 witness: registering a concrete identity-less definition at a
concrete path stores the connection identity as UserID. -/
theorem c8_witness :
    NTask.defn ⟨strOf "\\A\\new",
      { c8InputDef with Principal :=
        { c8InputDef.Principal with
          UserID := sampleService.connectedDomain ++ '\\' :: sampleService.connectedUser } }⟩
    = { c8InputDef with Principal :=
        { c8InputDef.Principal with
          UserID := sampleService.connectedDomain ++ '\\' :: sampleService.connectedUser } } :=
  (c8_default_identity sampleService sampleState (strOf "\\A\\new") c8InputDef [] []
    .TASK_LOGON_PASSWORD .TASK_CREATE rfl rfl).1 _ _ _ rfl

end Taskmaster
